import Mathlib

/-!
Shallow embedding of the django_polymorphic repository
(src/polymorphic/query.py and src/polymorphic/base.py), together with
proofs of the behavioural claims about its polymorphic object loader
(`PolymorphicQuerySet._get_real_instances`), its chunked `iterator()`,
its deferred-field descriptor (`BulkDeferredAttribute`) and the
metaclass validation in `PolymorphicModelBase.__new__`.

Modelling conventions:
- Python model instances become the structure `PObj`: a class tag, a
  primary key, the `polymorphic_ctype_id` column and the remaining
  instance `__dict__` as an association list of attribute values.
- Python classes are `MCls`: either a plain model class (identified by a
  numeric id) or a class produced by `deferred_class_factory` on top of
  such a class (a proxy subclass with `_deferred = True`).
- Python dicts become association lists with `alookup` / `aset`;
  `defaultdict(list)` appending becomes `appendTo`.
- The content-type registry, the database and the query configuration
  are an explicit environment `PEnv`.
- Database work is made observable: `get_real_instances` returns both
  the result list and the list of per-model primary-key queries it
  issued, and the deferred-attribute getter returns a fetch count.
-/

set_option maxHeartbeats 1000000

/-- Attribute values stored in an instance `__dict__`: ordinary column or
annotation values (modelled as integers) and the debugging name lists the
loader attaches at the end (`polymorphic_annotate_names` and
`polymorphic_extra_select_names`, which hold lists of field names). -/
inductive AVal where
  | int : Int → AVal
  | names : List String → AVal
deriving DecidableEq, Repr

/-- Default value used where Python would fall back to a model field's
default (`cls()` initialises every field to its default). -/
def AVal.default0 : AVal := AVal.int 0

/-- Instance `__dict__` fragment: attribute name to value. -/
abbrev Attrs := List (String × AVal)

/-- Dictionary lookup (`d.get(k)` / `k in d`). -/
def alookup {κ α : Type} [DecidableEq κ] : List (κ × α) → κ → Option α
  | [], _ => none
  | (k1, v) :: rest, k => if k1 = k then some v else alookup rest k

/-- Dictionary assignment (`d[k] = v`): replaces an existing entry or
appends a new one. -/
def aset {κ α : Type} [DecidableEq κ] : List (κ × α) → κ → α → List (κ × α)
  | [], k, v => [(k, v)]
  | (k1, v1) :: rest, k, v =>
    if k1 = k then (k, v) :: rest else (k1, v1) :: aset rest k v

/-- The `defaultdict(list)` idiom `d[k].append(v)` used for
`idlist_per_model`. -/
def appendTo : List (Nat × List Nat) → Nat → Nat → List (Nat × List Nat)
  | [], k, v => [(k, [v])]
  | (k1, vs) :: rest, k, v =>
    if k1 = k then (k, vs ++ [v]) :: rest else (k1, vs) :: appendTo rest k v

/-- A Python model class: either a plain model class (by id) or the class
built by `deferred_class_factory` over that model (a proxy subclass that
carries `_deferred = True` and whose `_meta.proxy_for_model` is the
underlying model). -/
inductive MCls where
  | plain : Nat → MCls
  | deferredOf : Nat → MCls
deriving DecidableEq, Repr

/-- The concrete model class an object is an instance of (a
`deferred_class_factory` class is a proxy subclass of its model, so
`isinstance` sees through it). -/
def MCls.concreteId : MCls → Nat
  | .plain i => i
  | .deferredOf i => i

/-- The `_deferred` class attribute (`True` exactly for classes made by
`deferred_class_factory`). -/
def MCls.isDeferredCls : MCls → Bool
  | .plain _ => false
  | .deferredOf _ => true

/-- A model instance as the loader sees it: its Python class, its primary
key, its `polymorphic_ctype_id` column and the rest of its `__dict__`
(ordinary fields, annotation values, extra-select values). -/
structure PObj where
  cls : MCls
  pk : Nat
  ctype : Nat
  attrs : Attrs
deriving DecidableEq, Repr

/-- Environment of a queryset evaluation: the base model of the query,
the content-type registry, the database of derived-class rows and the
query configuration. -/
structure PEnv where
  /-- Id of `self.model`, the base model class of the queryset. -/
  selfModel : Nat
  /-- `ContentType.objects.get_for_proxied_model(cls).pk`: the content
  type registered for the class itself (proxies keep their own entry). -/
  ctypeForProxied : Nat → Nat
  /-- `ContentType.objects.get_for_model(cls).pk`: the content type of
  the concrete (unproxied) model of the class. -/
  ctypeOf : Nat → Nat
  /-- `ContentType.objects.get_for_id(ct).model_class()`: the model class
  registered under a content-type id. -/
  realClassOf : Nat → Nat
  /-- The database as seen by `modelclass.base_objects.filter(pk__in=...)`:
  for a model class and a primary key, the stored row (its
  `polymorphic_ctype_id` and remaining field values), if present. -/
  db : Nat → Nat → Option (Nat × Attrs)
  /-- The queryset's `self.deferred` flag (set by `defer()`). -/
  deferred : Bool
  /-- `self.query.aggregates.keys()`: the annotation names on the query. -/
  aggNames : List String
  /-- `self.query.extra_select.keys()`: the extra-select names. -/
  extraNames : List String

/-- Modelled from the spec: `base_object.get_real_instance_class()` lives
in `polymorphic/models.py`, which is not part of the sources; per the
spec's glossary a content type is "a registry entry identifying the real
class an object was saved as", so the real class of an object is the
model class registered under its `polymorphic_ctype` value. -/
def realCls (env : PEnv) (bo : PObj) : Nat :=
  env.realClassOf bo.ctype

/-- Getting an attribute from an instance `__dict__`, with a model-field
default where Python would produce the field default. -/
def getAttrD (o : PObj) (n : String) : AVal :=
  (alookup o.attrs n).getD AVal.default0

/-- The `setattr(o, n, v)` idiom on the modelled attributes. -/
def setAttr (o : PObj) (n : String) (v : AVal) : PObj :=
  { o with attrs := aset o.attrs n v }

/-- The re-build idiom of `_get_real_instances`: `o = someclass()`
followed by copying every `__dict__` entry of the base object and
setting `o.pk = bo.pk`; the result carries the base object's data under
the new class. -/
def rebuildAs (c : MCls) (bo : PObj) : PObj :=
  { bo with cls := c }

/-- Copying the annotation (`self.query.aggregates`) and extra-select
(`self.query.extra_select`) values from the base result object onto the
result object, as done on each reconstruction path of
`_get_real_instances`. -/
def copyAnno (env : PEnv) (bo o : PObj) : PObj :=
  let o1 := env.aggNames.foldl (fun acc n => setAttr acc n (getAttrD bo n)) o
  env.extraNames.foldl (fun acc n => setAttr acc n (getAttrD bo n)) o1

/-- First pass state of `_get_real_instances`:
`base_result_objects_by_id`, `results` and `idlist_per_model`. -/
structure P1 where
  byId : List (Nat × PObj)
  results : List (Nat × PObj)
  idlists : List (Nat × List Nat)

/-- One step of the first loop of `_get_real_instances`: skip objects
whose primary key was already seen, store base-class objects and
rebuilt proxy-class objects into `results`, and sort derived objects'
ids into `idlist_per_model`. -/
def classifyStep (env : PEnv) (s : P1) (bo : PObj) : P1 :=
  if (alookup s.byId bo.pk).isSome then s
  else
    let s1 : P1 := { s with byId := aset s.byId bo.pk bo }
    if bo.ctype == env.ctypeForProxied env.selfModel then
      { s1 with results := aset s1.results bo.pk bo }
    else if env.ctypeOf (realCls env bo) == env.ctypeOf env.selfModel then
      { s1 with results := aset s1.results bo.pk (rebuildAs (MCls.plain (realCls env bo)) bo) }
    else
      { s1 with idlists := appendTo s1.idlists (realCls env bo) bo.pk }

/-- The fetch `modelclass.base_objects.filter(pk__in=idlist)` produces,
for each requested primary key that exists in the model's table, an
instance of `modelclass` built from the stored row. -/
def mkFetched (env : PEnv) (mc p : Nat) : Option PObj :=
  (env.db mc p).map (fun r => { cls := MCls.plain mc, pk := p, ctype := r.1, attrs := r.2 })

/-- The deferred branch of the per-model loop: for every id, build an
instance of the `deferred_class_factory` class over the model from the
base object's data (keeping the base object itself when it is already a
deferred instance of the same model, `bo.__class__._meta.proxy_for_model
== modelclass`), copying annotation and extra-select values, and store
it in `results`. -/
def deferredBuildStep (env : PEnv) (byId : List (Nat × PObj)) (mc : Nat)
    (res : List (Nat × PObj)) (p : Nat) : List (Nat × PObj) :=
  match alookup byId p with
  | none => res
  | some bo =>
    if bo.cls.isDeferredCls && (bo.cls.concreteId == mc) then aset res p bo
    else aset res p (copyAnno env bo (rebuildAs (MCls.deferredOf mc) bo))

/-- The deferred branch as a fold of its step over the id list. -/
def deferredBuildFold (env : PEnv) (byId : List (Nat × PObj)) (mc : Nat)
    (ids : List Nat) (results : List (Nat × PObj)) : List (Nat × PObj) :=
  ids.foldl (deferredBuildStep env byId mc) results

/-- The non-deferred branch of the per-model loop: for every object the
database returned for `filter(pk__in=idlist)`, copy the annotation and
extra-select values from the matching base object and store it in
`results` under its primary key. -/
def fetchStoreStep (env : PEnv) (byId : List (Nat × PObj))
    (res : List (Nat × PObj)) (o : PObj) : List (Nat × PObj) :=
  match alookup byId o.pk with
  | none => res
  | some bo => aset res o.pk (copyAnno env bo o)

/-- The non-deferred branch as a fold of its step over the fetched
objects. -/
def fetchStoreFold (env : PEnv) (byId : List (Nat × PObj))
    (fetched : List PObj) (results : List (Nat × PObj)) : List (Nat × PObj) :=
  fetched.foldl (fetchStoreStep env byId) results

/-- The `re-create missing objects` loop: every id of the model that has
no entry in `results` yet gets a fresh instance of the model class built
from the base object's data, with annotation and extra-select values
copied over. -/
def recreateStep (env : PEnv) (byId : List (Nat × PObj)) (mc : Nat)
    (res : List (Nat × PObj)) (p : Nat) : List (Nat × PObj) :=
  if (alookup res p).isSome then res
  else
    match alookup byId p with
    | none => res
    | some bo => aset res p (copyAnno env bo (rebuildAs (MCls.plain mc) bo))

/-- The re-create loop as a fold of its step over the id list. -/
def recreateFold (env : PEnv) (byId : List (Nat × PObj)) (mc : Nat)
    (ids : List Nat) (results : List (Nat × PObj)) : List (Nat × PObj) :=
  ids.foldl (recreateStep env byId mc) results

/-- Body of the per-model loop of `_get_real_instances`: in deferred mode
build instances of the `deferred_class_factory` class from the base
objects' data (keeping base objects that are already deferred instances
of the same model); otherwise fetch the model's rows by primary-key list
and copy the annotation and extra-select values over; finally re-create
any objects whose derived row is missing from the base object's data. -/
def processModel (env : PEnv) (byId results : List (Nat × PObj)) (mc : Nat)
    (ids : List Nat) : List (Nat × PObj) :=
  let res1 :=
    if env.deferred then deferredBuildFold env byId mc ids results
    else fetchStoreFold env byId (ids.filterMap (mkFetched env mc)) results
  recreateFold env byId mc ids res1

/-- Result of the polymorphic object loader: the reconstructed result
list together with the list of database queries it issued, each query
being a model class with the primary-key list passed to
`filter(pk__in=...)`. -/
structure GRIOut where
  res : List PObj
  queries : List (Nat × List Nat)
deriving DecidableEq, Repr

/-- The whole first loop of `_get_real_instances` over the base result
objects. -/
def classifyFold (env : PEnv) (input : List PObj) : P1 :=
  input.foldl (classifyStep env) ⟨[], [], []⟩

/-- One iteration of the per-model loop: process the model's id list
against the current results, and record the database query this
iteration runs (`base_objects.filter(pk__in=idlist)`) unless deferred
mode builds the objects without touching the database. -/
def phase2Step (env : PEnv) (byId : List (Nat × PObj))
    (acc : List (Nat × PObj) × List (Nat × List Nat)) (entry : Nat × List Nat) :
    List (Nat × PObj) × List (Nat × List Nat) :=
  (processModel env byId acc.1 entry.1 entry.2,
   if env.deferred then acc.2 else acc.2 ++ [entry])

/-- The polymorphic object loader
`PolymorphicQuerySet._get_real_instances`: classify the base result
objects by their real class, re-fetch (or rebuild) the derived ones per
model class, restore the original order by primary key, and attach the
`polymorphic_annotate_names` / `polymorphic_extra_select_names`
debugging attributes when annotations or extra selects are present. -/
def get_real_instances (env : PEnv) (input : List PObj) : GRIOut :=
  let orderedIds := input.map PObj.pk
  let s := classifyFold env input
  let rq := s.idlists.foldl (phase2Step env s.byId) (s.results, [])
  let lst := orderedIds.filterMap (fun p => alookup rq.1 p)
  let lst := if env.aggNames.isEmpty then lst
    else lst.map (fun o => setAttr o "polymorphic_annotate_names" (AVal.names env.aggNames))
  let lst := if env.extraNames.isEmpty then lst
    else lst.map (fun o => setAttr o "polymorphic_extra_select_names" (AVal.names env.extraNames))
  ⟨lst, rq.2⟩

/-! Specification-side functions used to characterise the loader. -/

/-- First result object carrying a given primary key, if any
(`base_result_objects_by_id` keeps only the first occurrence). -/
def firstWithPk : List PObj → Nat → Option PObj
  | [], _ => none
  | b :: l, p => if b.pk = p then some b else firstWithPk l p

/-- First occurrences of the list, one per primary key, in order. -/
def firsts : List PObj → List PObj
  | [] => []
  | b :: l => b :: (firsts l).filter (fun x => !(x.pk == b.pk))

/-- Whether an object takes the first branch of the classification: its
content type is the one of the query's base model itself. -/
def isSelfCt (env : PEnv) (bo : PObj) : Bool :=
  bo.ctype == env.ctypeForProxied env.selfModel

/-- Whether an object takes the derived branch of the classification:
neither the base model's own content type nor a proxy sharing the base
model's concrete class. -/
def isDerived (env : PEnv) (bo : PObj) : Bool :=
  !isSelfCt env bo && !(env.ctypeOf (realCls env bo) == env.ctypeOf env.selfModel)

/-- What the per-model loop produces for one derived first-occurrence
object: in deferred mode an instance of the deferred class over its real
model (or the base object itself when it is already such an instance);
otherwise the row fetched from the model's table, or a re-created object
when that row is missing, with annotation and extra-select values copied
from the base object. -/
def resultForDerived (env : PEnv) (mc : Nat) (bo : PObj) : PObj :=
  if env.deferred then
    if bo.cls.isDeferredCls && (bo.cls.concreteId == mc) then bo
    else copyAnno env bo (rebuildAs (MCls.deferredOf mc) bo)
  else
    match env.db mc bo.pk with
    | some r => copyAnno env bo { cls := MCls.plain mc, pk := bo.pk, ctype := r.1, attrs := r.2 }
    | none => copyAnno env bo (rebuildAs (MCls.plain mc) bo)

/-- The reconstructed object for a first-occurrence base result object,
before the final debug-name tagging. -/
def resultFor (env : PEnv) (bo : PObj) : PObj :=
  if isSelfCt env bo then bo
  else if env.ctypeOf (realCls env bo) == env.ctypeOf env.selfModel then
    rebuildAs (MCls.plain (realCls env bo)) bo
  else resultForDerived env (realCls env bo) bo

/-- The final tagging of lines 378-388 of query.py: when annotations or
extra selects are present, every returned object gets the corresponding
name-list attribute. -/
def postNames (env : PEnv) (o : PObj) : PObj :=
  let o1 := if env.aggNames.isEmpty then o
    else setAttr o "polymorphic_annotate_names" (AVal.names env.aggNames)
  if env.extraNames.isEmpty then o1
  else setAttr o1 "polymorphic_extra_select_names" (AVal.names env.extraNames)

/-- The per-model grouping of the derived ids, as built by repeated
`idlist_per_model[modelclass].append(...)`. -/
def groupFold (env : PEnv) (ds : List PObj) : List (Nat × List Nat) :=
  ds.foldl (fun acc b => appendTo acc (realCls env b) b.pk) []

/-! The chunked iterator (query.py lines 498-541). -/

/-- Chunk size of the polymorphic iterator; `CHUNK_SIZE` is 100 for the
targeted Django versions (query.py lines 15-18). -/
def Polymorphic_QuerySet_objects_per_request : Nat := 100

/-- Observable behaviour of one run of `iterator()`: the objects it
yielded, whether its loop finished (within the given iteration bound),
and the polymorphic re-fetch queries the loader issued along the way. -/
structure IterOut where
  yielded : List PObj
  finished : Bool
  queries : List (Nat × List Nat)
deriving DecidableEq, Repr

/-- The `while True` loop of `PolymorphicQuerySet.iterator()` with
polymorphism enabled, with an explicit bound on the number of loop
iterations (the `finished` flag records whether the loop finished within
that bound). Each iteration of the loop executes
`base_iter = self._iterator()`, which runs the base query afresh, so
every chunk is taken from the start of the same row stream; `rows` is
that stream. `reached_end` becomes true only when `StopIteration` is hit
inside the chunk, i.e. when the stream holds fewer rows than the chunk
size. -/
def polymorphicIteratorLoop (env : PEnv) (rows : List PObj) : Nat → IterOut
  | 0 => ⟨[], false, []⟩
  | Nat.succ fuel =>
    let chunk := rows.take Polymorphic_QuerySet_objects_per_request
    let g := get_real_instances env chunk
    if rows.length < Polymorphic_QuerySet_objects_per_request then ⟨g.res, true, g.queries⟩
    else
      let rest := polymorphicIteratorLoop env rows fuel
      ⟨g.res ++ rest.yielded, rest.finished, g.queries ++ rest.queries⟩

/-- The host framework's standard `QuerySet.iterator()`: it yields the
rows of the executed base query, unchanged. -/
def djangoIterator (rows : List PObj) : List PObj :=
  rows

/-- `PolymorphicQuerySet.iterator()`: with polymorphism disabled it
yields exactly the base iterator's objects and stops, issuing no
polymorphic re-fetch queries; otherwise it runs the chunked loop. -/
def polymorphicIterator (env : PEnv) (polymorphicDisabled : Bool) (rows : List PObj)
    (fuel : Nat) : IterOut :=
  if polymorphicDisabled then ⟨djangoIterator rows, true, []⟩
  else polymorphicIteratorLoop env rows fuel

/-- The queryset flags copied by `_clone` (query.py lines 124-135). -/
structure QSFlags where
  polymorphic_disabled : Bool
  deferred : Bool
deriving DecidableEq, Repr

/-- `_clone` copies `polymorphic_disabled` and `deferred` onto the new
queryset. -/
def QSFlags.clone (qs : QSFlags) : QSFlags :=
  { polymorphic_disabled := qs.polymorphic_disabled, deferred := qs.deferred }

/-- `non_polymorphic()`: clone and switch polymorphic behaviour off. -/
def QSFlags.non_polymorphic (qs : QSFlags) : QSFlags :=
  { qs.clone with polymorphic_disabled := true }

/-- The clone used by `aggregate()`: polymorphic behaviour is switched
off before delegating to the vanilla aggregate. -/
def QSFlags.aggregateClone (qs : QSFlags) : QSFlags :=
  { qs.clone with polymorphic_disabled := true }

/-! The deferred-attribute descriptor `BulkDeferredAttribute`
(query.py lines 28-76). -/

/-- Environment of a `BulkDeferredAttribute` access on one instance: the
attribute names installed as `BulkDeferredAttribute` on the instance's
class, the row `cls.base_objects.filter(pk=instance.pk).only(...).get()`
would return for this instance (none when the derived row is missing),
and the model's field defaults (used by `cls()` when re-creating a
missing object). -/
structure BDAEnv where
  bulkFields : List String
  dbRow : Option Attrs
  defaults : Attrs
deriving DecidableEq, Repr

/-- Value the fetch loop reads for one field: from the fetched row when
it exists, otherwise from the re-created object (the instance's own data
overlaid on the model's field defaults). -/
def bdaFetchVal (env : BDAEnv) (data : Attrs) (f : String) : AVal :=
  match env.dbRow with
  | some row => (alookup row f).getD AVal.default0
  | none => (alookup data f).getD ((alookup env.defaults f).getD AVal.default0)

/-- `BulkDeferredAttribute.__get__`: return the cached value when the
field is already in the instance `__dict__`; otherwise issue one fetch
for all of the class's bulk-deferred fields (re-creating the object from
the instance's data when the row is missing), cache every fetched value
on the instance, and return the requested one. The result is the
returned value (none models the unreachable `KeyError` branch), the new
instance `__dict__`, and the number of database fetches performed. -/
def BulkDeferredAttribute_get (env : BDAEnv) (data : Attrs) (fieldName : String) :
    Option AVal × Attrs × Nat :=
  if (alookup data fieldName).isSome then (alookup data fieldName, data, 0)
  else if !env.bulkFields.isEmpty && env.bulkFields.contains fieldName then
    let data1 := env.bulkFields.foldl (fun d f => aset d f (bdaFetchVal env data f)) data
    (alookup data1 fieldName, data1, 1)
  else (none, data, 0)

/-- `BulkDeferredAttribute.__set__`: store the value in the instance
`__dict__`; no database access happens (for a plain model field the
`field.__set__` passthrough does not apply). The second component is the
number of database fetches performed. -/
def BulkDeferredAttribute_set (data : Attrs) (fieldName : String) (v : AVal) :
    Attrs × Nat :=
  (aset data fieldName v, 0)

/-! The metaclass validation (base.py). -/

/-- Field names forbidden on polymorphic models (base.py line 22). -/
def POLYMORPHIC_SPECIAL_Q_KWORDS : List String :=
  ["instance_of", "not_instance_of"]

/-- What the manager validation observes about a manager: whether its
type is a subclass of `PolymorphicManager`, and whether it carries a
`queryset_class` attribute that is a subclass of `PolymorphicQuerySet`. -/
structure ManagerInfo where
  isPolymorphicManagerSub : Bool
  querysetClassOk : Bool
deriving DecidableEq, Repr

/-- What `PolymorphicModelBase.__new__` observes about the class being
constructed: the `_deferred` flag of the freshly created class, its
field names, the managers inherited from the bases (as collected by
`get_inherited_managers`), and the resulting `_default_manager`. -/
structure ModelDecl where
  deferredModel : Bool
  fieldNames : List String
  inheritedManagers : List ManagerInfo
  defaultManager : ManagerInfo
deriving DecidableEq, Repr

/-- `validate_model_fields`: raise an `AssertionError` on the first field
whose name is one of the special polymorphic query keywords. -/
def validate_model_fields (fields : List String) : Except String Unit :=
  match fields.find? (fun n => POLYMORPHIC_SPECIAL_Q_KWORDS.contains n) with
  | some n => Except.error ("field name " ++ n ++ " is not allowed in polymorphic models")
  | none => Except.ok ()

/-- `validate_model_manager`: the manager must be a subclass of
`PolymorphicManager` and its `queryset_class` a subclass of
`PolymorphicQuerySet`. -/
def validate_model_manager (m : ManagerInfo) : Except String Unit :=
  if !m.isPolymorphicManagerSub then
    Except.error "manager must be a subclass of PolymorphicManager"
  else if !m.querysetClassOk then
    Except.error "queryset class is not a subclass of PolymorphicQuerySet"
  else Except.ok ()

/-- The validation performed inside `get_inherited_managers`: every
inherited manager that is an instance of `PolymorphicManager` is passed
through `validate_model_manager`; other managers are left alone. -/
def validateInheritedManagers : List ManagerInfo → Except String Unit
  | [] => Except.ok ()
  | m :: rest =>
    if m.isPolymorphicManagerSub then
      match validate_model_manager m with
      | Except.error e => Except.error e
      | Except.ok _ => validateInheritedManagers rest
    else validateInheritedManagers rest

/-- The validation part of `PolymorphicModelBase.__new__`: on a
non-deferred class, check the field names, validate the inherited
polymorphic managers, validate the resulting `_default_manager`, and
return the class; deferred classes skip all checks. -/
def PolymorphicModelBase_new (d : ModelDecl) : Except String ModelDecl :=
  if d.deferredModel then Except.ok d
  else
    match validate_model_fields d.fieldNames with
    | Except.error e => Except.error e
    | Except.ok _ =>
      match validateInheritedManagers d.inheritedManagers with
      | Except.error e => Except.error e
      | Except.ok _ =>
        match validate_model_manager d.defaultManager with
        | Except.error e => Except.error e
        | Except.ok _ => Except.ok d

/-! Association-list lemmas. -/

theorem alookup_aset_self {κ α : Type} [DecidableEq κ] (l : List (κ × α)) (k : κ) (v : α) :
    alookup (aset l k v) k = some v := by
  induction l with
  | nil => simp [aset, alookup]
  | cons h t ih =>
    obtain ⟨k1, v1⟩ := h
    by_cases hk : k1 = k <;> simp [aset, alookup, hk, ih]

theorem alookup_aset_ne {κ α : Type} [DecidableEq κ] (l : List (κ × α)) (k q : κ) (v : α)
    (h : q ≠ k) : alookup (aset l k v) q = alookup l q := by
  have hk : k ≠ q := Ne.symm h
  induction l with
  | nil => simp [aset, alookup, hk]
  | cons hd t ih =>
    obtain ⟨k1, v1⟩ := hd
    by_cases h1 : k1 = k
    · subst h1
      simp [aset, alookup, hk]
    · simp only [aset, if_neg h1]
      by_cases h2 : k1 = q <;> simp [alookup, h2, ih]

theorem alookup_isSome_iff_mem_fst {κ α : Type} [DecidableEq κ] (l : List (κ × α)) (k : κ) :
    (alookup l k).isSome ↔ k ∈ l.map Prod.fst := by
  induction l with
  | nil => simp [alookup]
  | cons hd t ih =>
    obtain ⟨k1, v1⟩ := hd
    by_cases hk : k1 = k
    · subst hk
      simp [alookup]
    · have hk2 : k ≠ k1 := Ne.symm hk
      simp [alookup, hk, ih, hk2]

theorem alookup_eq_some_of_mem_nodup {κ α : Type} [DecidableEq κ] (l : List (κ × α))
    (k : κ) (vs : α) (hnd : (l.map Prod.fst).Nodup) (hmem : (k, vs) ∈ l) :
    alookup l k = some vs := by
  induction l with
  | nil => simp at hmem
  | cons hd t ih =>
    obtain ⟨k1, v1⟩ := hd
    simp only [List.map_cons, List.nodup_cons] at hnd
    rcases List.mem_cons.mp hmem with hh | hh
    · obtain ⟨h1, h2⟩ := Prod.mk.injEq .. ▸ hh
      simp [alookup, h1.symm, h2]
    · have hk1 : k1 ≠ k := by
        rintro rfl
        exact hnd.1 (List.mem_map.mpr ⟨(k1, vs), hh, rfl⟩)
      simp [alookup, hk1, ih hnd.2 hh]

theorem alookup_appendTo_self (l : List (Nat × List Nat)) (k v : Nat) :
    alookup (appendTo l k v) k = some ((alookup l k).getD [] ++ [v]) := by
  induction l with
  | nil => simp [appendTo, alookup]
  | cons hd t ih =>
    obtain ⟨k1, vs⟩ := hd
    by_cases hk : k1 = k <;> simp [appendTo, alookup, hk, ih]

theorem alookup_appendTo_ne (l : List (Nat × List Nat)) (k q v : Nat) (h : q ≠ k) :
    alookup (appendTo l k v) q = alookup l q := by
  have hk : k ≠ q := Ne.symm h
  induction l with
  | nil => simp [appendTo, alookup, hk]
  | cons hd t ih =>
    obtain ⟨k1, vs⟩ := hd
    by_cases h1 : k1 = k
    · subst h1
      simp [appendTo, alookup, hk]
    · simp only [appendTo, if_neg h1]
      by_cases h2 : k1 = q <;> simp [alookup, h2, ih]

theorem map_fst_appendTo (l : List (Nat × List Nat)) (k v : Nat) :
    (appendTo l k v).map Prod.fst =
      if k ∈ l.map Prod.fst then l.map Prod.fst else l.map Prod.fst ++ [k] := by
  induction l with
  | nil => simp [appendTo]
  | cons hd t ih =>
    obtain ⟨k1, vs⟩ := hd
    by_cases hk : k1 = k
    · simp [appendTo, hk]
    · by_cases hmem : k ∈ t.map Prod.fst <;>
        simp [appendTo, hk, ih, hmem, Ne.symm hk]

/-! Lemmas about first occurrences by primary key. -/

theorem firstWithPk_append (l1 l2 : List PObj) (p : Nat) :
    firstWithPk (l1 ++ l2) p = (firstWithPk l1 p).or (firstWithPk l2 p) := by
  induction l1 with
  | nil => simp [firstWithPk]
  | cons b t ih =>
    by_cases hb : b.pk = p <;> simp [firstWithPk, hb, ih]

theorem pk_of_firstWithPk (l : List PObj) (p : Nat) (b : PObj)
    (h : firstWithPk l p = some b) : b.pk = p := by
  induction l with
  | nil => simp [firstWithPk] at h
  | cons a t ih =>
    by_cases ha : a.pk = p
    · simp only [firstWithPk, if_pos ha, Option.some.injEq] at h
      exact h ▸ ha
    · simp only [firstWithPk, if_neg ha] at h
      exact ih h

theorem mem_of_firstWithPk (l : List PObj) (p : Nat) (b : PObj)
    (h : firstWithPk l p = some b) : b ∈ l := by
  induction l with
  | nil => simp [firstWithPk] at h
  | cons a t ih =>
    by_cases ha : a.pk = p
    · simp only [firstWithPk, if_pos ha, Option.some.injEq] at h
      exact h ▸ List.mem_cons_self a t
    · simp only [firstWithPk, if_neg ha] at h
      exact List.mem_cons_of_mem a (ih h)

theorem firstWithPk_isSome_of_mem (l : List PObj) (b : PObj) (h : b ∈ l) :
    (firstWithPk l b.pk).isSome := by
  induction l with
  | nil => simp at h
  | cons a t ih =>
    by_cases ha : a.pk = b.pk
    · simp [firstWithPk, ha]
    · rcases List.mem_cons.mp h with hh | hh
      · exact absurd (hh ▸ rfl) ha
      · simpa [firstWithPk, ha] using ih hh

theorem firstWithPk_eq_self_of_nodup (l : List PObj) (b : PObj)
    (hnd : (l.map PObj.pk).Nodup) (h : b ∈ l) : firstWithPk l b.pk = some b := by
  induction l with
  | nil => simp at h
  | cons a t ih =>
    simp only [List.map_cons, List.nodup_cons] at hnd
    rcases List.mem_cons.mp h with hh | hh
    · subst hh
      simp [firstWithPk]
    · have ha : a.pk ≠ b.pk := by
        intro he
        exact hnd.1 (he ▸ List.mem_map.mpr ⟨b, hh, rfl⟩)
      simp [firstWithPk, ha, ih hnd.2 hh]

/-! Lemmas about `firsts` (the first occurrence of each primary key). -/

theorem firstWithPk_filter_ne (l : List PObj) (p q : Nat) (h : p ≠ q) :
    firstWithPk (l.filter (fun x => !(x.pk == q))) p = firstWithPk l p := by
  induction l with
  | nil => simp
  | cons a t ih =>
    by_cases haq : a.pk = q
    · have hap : ¬ a.pk = p := by rw [haq]; exact Ne.symm h
      simp [List.filter_cons, haq, firstWithPk, hap, ih, Ne.symm h]
    · by_cases hap : a.pk = p <;>
        simp [List.filter_cons, haq, firstWithPk, hap, ih, h, Ne.symm h]

theorem firstWithPk_firsts (l : List PObj) (p : Nat) :
    firstWithPk (firsts l) p = firstWithPk l p := by
  induction l with
  | nil => rfl
  | cons b t ih =>
    by_cases hb : b.pk = p
    · simp [firsts, firstWithPk, hb]
    · have hpb : p ≠ b.pk := Ne.symm hb
      simp [firsts, firstWithPk, hb, firstWithPk_filter_ne _ _ _ hpb, ih]

theorem firsts_pk_nodup (l : List PObj) : ((firsts l).map PObj.pk).Nodup := by
  induction l with
  | nil => simp [firsts]
  | cons b t ih =>
    simp only [firsts, List.map_cons, List.nodup_cons]
    constructor
    · intro hmem
      obtain ⟨x, hx, hpk⟩ := List.mem_map.mp hmem
      have hfx := List.of_mem_filter hx
      simp [hpk] at hfx
    · exact List.Nodup.sublist (List.Sublist.map PObj.pk (List.filter_sublist _)) ih

theorem firsts_append_single (l : List PObj) (b : PObj) :
    firsts (l ++ [b]) =
      firsts l ++ (if (firstWithPk l b.pk).isSome then [] else [b]) := by
  induction l with
  | nil => simp [firsts, firstWithPk]
  | cons a t ih =>
    have key : ((if (firstWithPk t b.pk).isSome then ([] : List PObj) else [b]).filter
          (fun x => !(x.pk == a.pk))) =
        (if (firstWithPk (a :: t) b.pk).isSome then ([] : List PObj) else [b]) := by
      by_cases hab : b.pk = a.pk
      · have h1 : a.pk = b.pk := hab.symm
        simp only [firstWithPk, if_pos h1, Option.isSome_some, if_true]
        by_cases ht : (firstWithPk t b.pk).isSome <;> simp [ht, List.filter_cons, hab]
      · have h1 : ¬ a.pk = b.pk := fun hh => hab hh.symm
        simp only [firstWithPk, if_neg h1]
        by_cases ht : (firstWithPk t b.pk).isSome <;> simp [ht, List.filter_cons, hab]
    simp [firsts, ih, List.filter_append, key]

theorem firsts_eq_self_of_nodup (l : List PObj) (hnd : (l.map PObj.pk).Nodup) :
    firsts l = l := by
  induction l with
  | nil => rfl
  | cons b t ih =>
    simp only [List.map_cons, List.nodup_cons] at hnd
    have hall : ∀ x ∈ t, (!(x.pk == b.pk)) = true := by
      intro x hx
      simp only [Bool.not_eq_true', beq_eq_false_iff_ne, ne_eq]
      intro he
      exact hnd.1 (List.mem_map.mpr ⟨x, hx, he⟩)
    rw [firsts, ih hnd.2, List.filter_eq_self.mpr hall]

theorem firstWithPk_of_mem_firsts (l : List PObj) (b : PObj) (h : b ∈ firsts l) :
    firstWithPk l b.pk = some b := by
  rw [← firstWithPk_firsts]
  exact firstWithPk_eq_self_of_nodup _ b (firsts_pk_nodup l) h

theorem mem_firsts_of_firstWithPk (l : List PObj) (p : Nat) (b : PObj)
    (h : firstWithPk l p = some b) : b ∈ firsts l :=
  mem_of_firstWithPk _ _ _ ((firstWithPk_firsts l p).trans h)

theorem filterMap_eq_map_of_forall {α β : Type} (l : List α) (f : α → Option β) (g : α → β)
    (h : ∀ b ∈ l, f b = some (g b)) : l.filterMap f = l.map g := by
  induction l with
  | nil => rfl
  | cons a t ih =>
    rw [List.filterMap_cons, h a (List.mem_cons_self a t), List.map_cons,
      ih (fun b hb => h b (List.mem_cons_of_mem a hb))]

/-! Characterisation of the first loop (`classifyFold`). -/

theorem classifyStep_byId (env : PEnv) (s : P1) (bo : PObj) :
    (classifyStep env s bo).byId =
      if (alookup s.byId bo.pk).isSome then s.byId else aset s.byId bo.pk bo := by
  simp only [classifyStep]
  split
  · rfl
  · split
    · rfl
    · split <;> rfl

theorem classifyStep_results (env : PEnv) (s : P1) (bo : PObj) :
    (classifyStep env s bo).results =
      if (alookup s.byId bo.pk).isSome then s.results
      else if isSelfCt env bo then aset s.results bo.pk bo
      else if env.ctypeOf (realCls env bo) == env.ctypeOf env.selfModel then
        aset s.results bo.pk (rebuildAs (MCls.plain (realCls env bo)) bo)
      else s.results := by
  simp only [classifyStep, isSelfCt]
  split
  · rfl
  · split
    · rfl
    · split <;> rfl

theorem classifyStep_idlists (env : PEnv) (s : P1) (bo : PObj) :
    (classifyStep env s bo).idlists =
      if (alookup s.byId bo.pk).isSome then s.idlists
      else if isDerived env bo then appendTo s.idlists (realCls env bo) bo.pk
      else s.idlists := by
  simp only [classifyStep, isDerived, isSelfCt]
  split
  · rfl
  · split
    · rename_i h2
      simp [h2]
    · rename_i h2
      split
      · rename_i h3
        simp [h2, h3]
      · rename_i h3
        simp [h2, h3]

theorem classifyFold_append_single (env : PEnv) (l : List PObj) (b : PObj) :
    classifyFold env (l ++ [b]) = classifyStep env (classifyFold env l) b := by
  simp [classifyFold, List.foldl_append]

theorem classifyFold_byId (env : PEnv) (l : List PObj) (p : Nat) :
    alookup (classifyFold env l).byId p = firstWithPk l p := by
  induction l using List.reverseRecOn generalizing p with
  | nil => rfl
  | append_singleton t b ih =>
    rw [classifyFold_append_single, firstWithPk_append, classifyStep_byId]
    by_cases hb : (alookup (classifyFold env t).byId b.pk).isSome
    · rw [if_pos hb, ih]
      have hsome : (firstWithPk t b.pk).isSome := by rw [← ih]; exact hb
      by_cases hp : b.pk = p
      · subst hp
        obtain ⟨x, hx⟩ := Option.isSome_iff_exists.mp hsome
        simp [hx, firstWithPk, Option.or]
      · have hnb : firstWithPk [b] p = none := by simp [firstWithPk, hp]
        simp [hnb, Option.or_none]
    · rw [if_neg hb]
      have hnone : firstWithPk t b.pk = none := by
        rw [← ih]; exact Option.not_isSome_iff_eq_none.mp hb
      by_cases hp : b.pk = p
      · subst hp
        simp [alookup_aset_self, hnone, firstWithPk, Option.or]
      · rw [alookup_aset_ne _ _ _ _ (Ne.symm hp), ih]
        have hnb : firstWithPk [b] p = none := by simp [firstWithPk, hp]
        simp [hnb, Option.or_none]

theorem classifyFold_results (env : PEnv) (l : List PObj) (p : Nat) :
    alookup (classifyFold env l).results p =
      match firstWithPk l p with
      | none => none
      | some bo => if isDerived env bo then none else some (resultFor env bo) := by
  induction l using List.reverseRecOn generalizing p with
  | nil => rfl
  | append_singleton t b ih =>
    rw [classifyFold_append_single, firstWithPk_append, classifyStep_results,
      classifyFold_byId]
    by_cases hb : (firstWithPk t b.pk).isSome
    · rw [if_pos hb]
      by_cases hp : b.pk = p
      · subst hp
        obtain ⟨x, hx⟩ := Option.isSome_iff_exists.mp hb
        rw [ih]
        simp [hx, Option.or]
      · have hnb : firstWithPk [b] p = none := by simp [firstWithPk, hp]
        rw [ih]
        simp [hnb, Option.or_none]
    · have hbn : firstWithPk t b.pk = none := Option.not_isSome_iff_eq_none.mp hb
      rw [if_neg hb]
      by_cases hp : b.pk = p
      · subst hp
        have hor : (firstWithPk t b.pk).or (firstWithPk [b] b.pk) = some b := by
          simp [hbn, firstWithPk, Option.or]
        rw [hor]
        by_cases h1 : isSelfCt env b
        · simp [h1, alookup_aset_self, isDerived, resultFor]
        · by_cases h2 : (env.ctypeOf (realCls env b) == env.ctypeOf env.selfModel) = true
          · simp [h1, h2, alookup_aset_self, isDerived, resultFor]
          · rw [if_neg h1, if_neg h2, ih]
            simp [hbn, isDerived, h1, h2, resultFor]
      · have hnb : firstWithPk [b] p = none := by simp [firstWithPk, hp]
        rw [hnb]
        by_cases h1 : isSelfCt env b
        · rw [if_pos h1, alookup_aset_ne _ _ _ _ (Ne.symm hp), ih]
          simp [Option.or_none]
        · by_cases h2 : (env.ctypeOf (realCls env b) == env.ctypeOf env.selfModel) = true
          · rw [if_neg h1, if_pos h2, alookup_aset_ne _ _ _ _ (Ne.symm hp), ih]
            simp [Option.or_none]
          · rw [if_neg h1, if_neg h2, ih]
            simp [Option.or_none]

theorem groupFold_append_single (env : PEnv) (ds : List PObj) (b : PObj) :
    groupFold env (ds ++ [b]) = appendTo (groupFold env ds) (realCls env b) b.pk := by
  simp [groupFold, List.foldl_append]

theorem classifyFold_idlists (env : PEnv) (l : List PObj) :
    (classifyFold env l).idlists = groupFold env ((firsts l).filter (isDerived env)) := by
  induction l using List.reverseRecOn with
  | nil => rfl
  | append_singleton t b ih =>
    rw [classifyFold_append_single, classifyStep_idlists, classifyFold_byId,
      firsts_append_single]
    by_cases hb : (firstWithPk t b.pk).isSome
    · rw [if_pos hb, if_pos hb, List.append_nil]
      exact ih
    · rw [if_neg hb, if_neg hb]
      by_cases hd : isDerived env b
      · rw [if_pos hd, ih, List.filter_append]
        have hfb : [b].filter (isDerived env) = [b] := by simp [hd]
        rw [hfb, groupFold_append_single]
      · rw [if_neg hd, ih, List.filter_append]
        have hfb : [b].filter (isDerived env) = ([] : List PObj) := by simp [hd]
        rw [hfb, List.append_nil]

/-! Characterisation of the per-model grouping (`idlist_per_model`). -/

theorem groupFold_lookup (env : PEnv) (ds : List PObj) (mc : Nat) :
    alookup (groupFold env ds) mc =
      if mc ∈ ds.map (realCls env) then
        some ((ds.filter (fun b => realCls env b == mc)).map PObj.pk)
      else none := by
  induction ds using List.reverseRecOn with
  | nil => rfl
  | append_singleton t b ih =>
    rw [groupFold_append_single]
    by_cases hm : mc = realCls env b
    · subst hm
      rw [alookup_appendTo_self, ih]
      have hmem2 : realCls env b ∈ (t ++ [b]).map (realCls env) := by simp
      rw [if_pos hmem2, List.filter_append]
      have hfb : [b].filter (fun x => realCls env x == realCls env b) = [b] := by simp
      rw [hfb]
      by_cases hmem : realCls env b ∈ t.map (realCls env)
      · rw [if_pos hmem]
        simp
      · rw [if_neg hmem]
        have hfil : t.filter (fun x => realCls env x == realCls env b) = [] := by
          rw [List.filter_eq_nil_iff]
          intro a ha
          simp only [beq_iff_eq]
          intro he
          exact hmem (List.mem_map.mpr ⟨a, ha, he⟩)
        simp [hfil]
    · rw [alookup_appendTo_ne _ _ _ _ hm, ih]
      have hb : ¬ (realCls env b = mc) := fun hh => hm hh.symm
      have hfb : [b].filter (fun x => realCls env x == mc) = [] := by simp [hb]
      by_cases hmem : mc ∈ t.map (realCls env)
      · have hmem2 : mc ∈ (t ++ [b]).map (realCls env) := by
          simp only [List.map_append, List.mem_append]
          exact Or.inl hmem
        rw [if_pos hmem, if_pos hmem2, List.filter_append, hfb, List.append_nil]
      · have hmem2 : ¬ mc ∈ (t ++ [b]).map (realCls env) := by
          simp only [List.map_append, List.mem_append]
          rintro (hh | hh)
          · exact hmem hh
          · simp at hh
            exact hb hh.symm
        rw [if_neg hmem, if_neg hmem2]

theorem groupFold_fst_nodup (env : PEnv) (ds : List PObj) :
    ((groupFold env ds).map Prod.fst).Nodup := by
  induction ds using List.reverseRecOn with
  | nil => simp [groupFold]
  | append_singleton t b ih =>
    rw [groupFold_append_single, map_fst_appendTo]
    by_cases hmem : (realCls env b) ∈ (groupFold env t).map Prod.fst
    · simp [hmem, ih]
    · simp [hmem, ih, List.nodup_append]

theorem mem_groupFold_fst (env : PEnv) (ds : List PObj) (mc : Nat) :
    mc ∈ (groupFold env ds).map Prod.fst ↔ mc ∈ ds.map (realCls env) := by
  rw [← alookup_isSome_iff_mem_fst, groupFold_lookup]
  by_cases hmem : mc ∈ ds.map (realCls env) <;> simp [hmem]

theorem groupFold_entry (env : PEnv) (ds : List PObj) (mc : Nat) (ids : List Nat)
    (h : (mc, ids) ∈ groupFold env ds) :
    ids = (ds.filter (fun b => realCls env b == mc)).map PObj.pk := by
  have hl := alookup_eq_some_of_mem_nodup _ _ _ (groupFold_fst_nodup env ds) h
  rw [groupFold_lookup] at hl
  by_cases hmem : mc ∈ ds.map (realCls env)
  · rw [if_pos hmem] at hl
    exact (Option.some_inj.mp hl).symm
  · rw [if_neg hmem] at hl
    exact absurd hl (by simp)

/-! Characterisation of the per-model processing folds. -/

theorem firstWithPk_eq_none_of_not_mem (l : List PObj) (q : Nat)
    (h : ¬ q ∈ l.map PObj.pk) : firstWithPk l q = none := by
  induction l with
  | nil => rfl
  | cons a t ih =>
    simp only [List.map_cons, List.mem_cons] at h
    push_neg at h
    have ha : ¬ a.pk = q := fun hh => h.1 hh.symm
    rw [firstWithPk, if_neg ha]
    exact ih h.2

theorem deferredBuildStep_ne (env : PEnv) (byId : List (Nat × PObj)) (mc : Nat)
    (results : List (Nat × PObj)) (p q : Nat) (h : q ≠ p) :
    alookup (deferredBuildStep env byId mc results p) q = alookup results q := by
  unfold deferredBuildStep
  cases alookup byId p with
  | none => rfl
  | some bo =>
    by_cases hc : (bo.cls.isDeferredCls && (bo.cls.concreteId == mc)) = true <;>
      simp [hc, alookup_aset_ne _ _ _ _ h]

theorem deferredBuildFold_lookup (env : PEnv) (byId : List (Nat × PObj)) (mc : Nat)
    (ids : List Nat) (results : List (Nat × PObj)) (q : Nat) (hnd : ids.Nodup) :
    alookup (deferredBuildFold env byId mc ids results) q =
      if q ∈ ids then
        match alookup byId q with
        | none => alookup results q
        | some bo =>
          some (if bo.cls.isDeferredCls && (bo.cls.concreteId == mc) then bo
            else copyAnno env bo (rebuildAs (MCls.deferredOf mc) bo))
      else alookup results q := by
  induction ids generalizing results with
  | nil => simp [deferredBuildFold]
  | cons p t ih =>
    simp only [List.nodup_cons] at hnd
    rw [show deferredBuildFold env byId mc (p :: t) results =
      deferredBuildFold env byId mc t (deferredBuildStep env byId mc results p) from rfl]
    rw [ih _ hnd.2]
    by_cases hq : q = p
    · subst hq
      rw [if_neg hnd.1, if_pos (List.mem_cons_self q t)]
      unfold deferredBuildStep
      cases hby : alookup byId q with
      | none => simp
      | some bo =>
        by_cases hc : (bo.cls.isDeferredCls && (bo.cls.concreteId == mc)) = true <;>
          simp [hc, alookup_aset_self]
    · rw [deferredBuildStep_ne _ _ _ _ _ _ hq]
      simp only [List.mem_cons, hq, false_or]

theorem fetchStoreStep_ne (env : PEnv) (byId : List (Nat × PObj))
    (results : List (Nat × PObj)) (o : PObj) (q : Nat) (h : q ≠ o.pk) :
    alookup (fetchStoreStep env byId results o) q = alookup results q := by
  unfold fetchStoreStep
  cases alookup byId o.pk with
  | none => rfl
  | some bo => simp [alookup_aset_ne _ _ _ _ h]

theorem fetchStoreFold_lookup (env : PEnv) (byId : List (Nat × PObj))
    (fetched : List PObj) (results : List (Nat × PObj)) (q : Nat)
    (hnd : (fetched.map PObj.pk).Nodup) :
    alookup (fetchStoreFold env byId fetched results) q =
      match firstWithPk fetched q with
      | none => alookup results q
      | some o =>
        match alookup byId q with
        | none => alookup results q
        | some bo => some (copyAnno env bo o) := by
  induction fetched generalizing results with
  | nil => simp [fetchStoreFold, firstWithPk]
  | cons o t ih =>
    simp only [List.map_cons, List.nodup_cons] at hnd
    rw [show fetchStoreFold env byId (o :: t) results =
      fetchStoreFold env byId t (fetchStoreStep env byId results o) from rfl]
    rw [ih _ hnd.2]
    by_cases hq : q = o.pk
    · subst hq
      have hnone : firstWithPk t o.pk = none :=
        firstWithPk_eq_none_of_not_mem _ _ hnd.1
      rw [hnone]
      have hfw : firstWithPk (o :: t) o.pk = some o := by simp [firstWithPk]
      rw [hfw]
      unfold fetchStoreStep
      cases hby : alookup byId o.pk with
      | none => simp
      | some bo => simp [alookup_aset_self]
    · have ho : ¬ o.pk = q := fun hh => hq hh.symm
      have hfw : firstWithPk (o :: t) q = firstWithPk t q := by
        rw [firstWithPk, if_neg ho]
      rw [hfw, fetchStoreStep_ne _ _ _ _ _ hq]

theorem recreateStep_ne (env : PEnv) (byId : List (Nat × PObj)) (mc : Nat)
    (results : List (Nat × PObj)) (p q : Nat) (h : q ≠ p) :
    alookup (recreateStep env byId mc results p) q = alookup results q := by
  unfold recreateStep
  by_cases hs : (alookup results p).isSome
  · simp [hs]
  · simp only [hs, if_false, Bool.false_eq_true]
    cases alookup byId p with
    | none => rfl
    | some bo => simp [alookup_aset_ne _ _ _ _ h]

theorem recreateFold_lookup (env : PEnv) (byId : List (Nat × PObj)) (mc : Nat)
    (ids : List Nat) (results : List (Nat × PObj)) (q : Nat) (hnd : ids.Nodup) :
    alookup (recreateFold env byId mc ids results) q =
      if q ∈ ids then
        match alookup results q with
        | some v => some v
        | none =>
          match alookup byId q with
          | none => none
          | some bo => some (copyAnno env bo (rebuildAs (MCls.plain mc) bo))
      else alookup results q := by
  induction ids generalizing results with
  | nil => simp [recreateFold]
  | cons p t ih =>
    simp only [List.nodup_cons] at hnd
    rw [show recreateFold env byId mc (p :: t) results =
      recreateFold env byId mc t (recreateStep env byId mc results p) from rfl]
    rw [ih _ hnd.2]
    by_cases hq : q = p
    · subst hq
      rw [if_neg hnd.1, if_pos (List.mem_cons_self q t)]
      unfold recreateStep
      cases hres : alookup results q with
      | some v => simp [hres]
      | none =>
        simp only [hres, Option.isSome_none, if_false, Bool.false_eq_true]
        cases hby : alookup byId q with
        | none => simp [hres]
        | some bo => simp [alookup_aset_self]
    · rw [recreateStep_ne _ _ _ _ _ _ hq]
      simp only [List.mem_cons, hq, false_or]

theorem mkFetched_pk (env : PEnv) (mc p : Nat) (o : PObj)
    (h : mkFetched env mc p = some o) : o.pk = p := by
  unfold mkFetched at h
  cases hdb : env.db mc p with
  | none => rw [hdb] at h; cases h
  | some r => rw [hdb] at h; cases h; rfl

theorem firstWithPk_filterMap_mkFetched (env : PEnv) (mc : Nat) (ids : List Nat) (q : Nat)
    (hnd : ids.Nodup) :
    firstWithPk (ids.filterMap (mkFetched env mc)) q =
      if q ∈ ids then mkFetched env mc q else none := by
  induction ids with
  | nil => simp [firstWithPk]
  | cons p t ih =>
    simp only [List.nodup_cons] at hnd
    rw [List.filterMap_cons]
    cases hf : mkFetched env mc p with
    | none =>
      rw [ih hnd.2]
      by_cases hq : q = p
      · subst hq
        rw [if_neg hnd.1, if_pos (List.mem_cons_self q t), hf]
      · simp only [List.mem_cons, hq, false_or]
    | some o =>
      have hpk : o.pk = p := mkFetched_pk env mc p o hf
      by_cases hq : q = p
      · subst hq
        rw [firstWithPk, if_pos hpk, if_pos (List.mem_cons_self q t), hf]
      · have ho : ¬ o.pk = q := by rw [hpk]; exact fun hh => hq hh.symm
        rw [firstWithPk, if_neg ho, ih hnd.2]
        simp only [List.mem_cons, hq, false_or]

theorem map_pk_filterMap_mkFetched (env : PEnv) (mc : Nat) (ids : List Nat) :
    ((ids.filterMap (mkFetched env mc)).map PObj.pk).Sublist ids := by
  induction ids with
  | nil => simp
  | cons p t ih =>
    rw [List.filterMap_cons]
    cases hf : mkFetched env mc p with
    | none => exact ih.cons p
    | some o =>
      rw [List.map_cons, mkFetched_pk env mc p o hf]
      exact ih.cons₂ p

theorem processModel_lookup (env : PEnv) (byId results : List (Nat × PObj)) (mc : Nat)
    (ids : List Nat) (q : Nat) (hnd : ids.Nodup)
    (hres : ∀ p ∈ ids, alookup results p = none)
    (hby : ∀ p ∈ ids, ∀ bo, alookup byId p = some bo → bo.pk = p) :
    alookup (processModel env byId results mc ids) q =
      if q ∈ ids then
        match alookup byId q with
        | none => none
        | some bo => some (resultForDerived env mc bo)
      else alookup results q := by
  unfold processModel
  by_cases hdef : env.deferred
  · rw [if_pos hdef, recreateFold_lookup _ _ _ _ _ _ hnd,
      deferredBuildFold_lookup _ _ _ _ _ _ hnd]
    by_cases hq : q ∈ ids
    · cases hbyq : alookup byId q with
      | none => simp [hq, hbyq, hres q hq]
      | some bo => simp [hq, hbyq, resultForDerived, hdef]
    · simp [hq]
  · rw [if_neg hdef, recreateFold_lookup _ _ _ _ _ _ hnd,
      fetchStoreFold_lookup _ _ _ _ _
        (List.Nodup.sublist (map_pk_filterMap_mkFetched env mc ids) hnd),
      firstWithPk_filterMap_mkFetched _ _ _ _ hnd]
    by_cases hq : q ∈ ids
    · cases hbyq : alookup byId q with
      | none =>
        cases hdb : env.db mc q with
        | none => simp [hq, mkFetched, hdb, hbyq, hres q hq]
        | some r => simp [hq, mkFetched, hdb, hbyq, hres q hq]
      | some bo =>
        have hpk : bo.pk = q := hby q hq bo hbyq
        cases hdb : env.db mc q with
        | none => simp [hq, mkFetched, hdb, hbyq, hres q hq, resultForDerived, hdef, hpk]
        | some r => simp [hq, mkFetched, hdb, hbyq, resultForDerived, hdef, hpk]
    · simp [hq]

theorem phase2Fold_lookup (env : PEnv) (byId : List (Nat × PObj))
    (entries : List (Nat × List Nat)) (results : List (Nat × PObj))
    (qs0 : List (Nat × List Nat)) (q : Nat)
    (hnodup : ∀ pr ∈ entries, (pr.2 : List Nat).Nodup)
    (hres : ∀ pr ∈ entries, ∀ p ∈ pr.2, alookup results p = none)
    (hby : ∀ pr ∈ entries, ∀ p ∈ pr.2, ∀ bo, alookup byId p = some bo → bo.pk = p)
    (hdisj : entries.Pairwise (fun a b => ∀ p, p ∈ a.2 → ¬ p ∈ b.2)) :
    alookup ((entries.foldl (phase2Step env byId) (results, qs0)).1) q =
      match entries.find? (fun pr => decide (q ∈ pr.2)) with
      | none => alookup results q
      | some pr =>
        match alookup byId q with
        | none => none
        | some bo => some (resultForDerived env pr.1 bo) := by
  induction entries generalizing results qs0 with
  | nil => simp [List.foldl_nil, List.find?]
  | cons e rest ih =>
    obtain ⟨mc, ids⟩ := e
    simp only [List.pairwise_cons] at hdisj
    have hndh : ids.Nodup := hnodup (mc, ids) (List.mem_cons_self _ _)
    have hresh : ∀ p ∈ ids, alookup results p = none := fun p hp =>
      hres (mc, ids) (List.mem_cons_self _ _) p hp
    have hbyh : ∀ p ∈ ids, ∀ bo, alookup byId p = some bo → bo.pk = p := fun p hp =>
      hby (mc, ids) (List.mem_cons_self _ _) p hp
    have hres2 : ∀ pr ∈ rest, ∀ p ∈ pr.2,
        alookup (processModel env byId results mc ids) p = none := by
      intro pr hpr p hp
      have hpn : ¬ p ∈ ids := fun hin => hdisj.1 pr hpr p hin hp
      rw [processModel_lookup env byId results mc ids p hndh hresh hbyh, if_neg hpn]
      exact hres pr (List.mem_cons_of_mem _ hpr) p hp
    rw [List.foldl_cons,
      show phase2Step env byId (results, qs0) (mc, ids)
        = (processModel env byId results mc ids,
           if env.deferred then qs0 else qs0 ++ [(mc, ids)]) from rfl,
      ih (processModel env byId results mc ids)
        (if env.deferred then qs0 else qs0 ++ [(mc, ids)])
        (fun pr hpr => hnodup pr (List.mem_cons_of_mem _ hpr))
        hres2
        (fun pr hpr => hby pr (List.mem_cons_of_mem _ hpr))
        hdisj.2]
    by_cases hq : q ∈ ids
    · have hfc : List.find? (fun pr => decide (q ∈ pr.2)) ((mc, ids) :: rest)
          = some (mc, ids) := by
        rw [List.find?_cons_of_pos]
        simp [hq]
      have hfr : List.find? (fun pr => decide (q ∈ pr.2)) rest = none := by
        rw [List.find?_eq_none]
        intro pr hpr
        simp only [decide_eq_true_eq]
        exact fun hin => hdisj.1 pr hpr q hq hin
      rw [hfc, hfr, processModel_lookup env byId results mc ids q hndh hresh hbyh,
        if_pos hq]
    · have hfc : List.find? (fun pr => decide (q ∈ pr.2)) ((mc, ids) :: rest)
          = List.find? (fun pr => decide (q ∈ pr.2)) rest := by
        rw [List.find?_cons_of_neg]
        simp [hq]
      rw [hfc]
      cases hfind : List.find? (fun pr => decide (q ∈ pr.2)) rest with
      | none =>
        rw [processModel_lookup env byId results mc ids q hndh hresh hbyh, if_neg hq]
      | some pr => rfl

theorem mem_of_alookup_eq_some {κ α : Type} [DecidableEq κ] (l : List (κ × α)) (k : κ)
    (v : α) (h : alookup l k = some v) : (k, v) ∈ l := by
  induction l with
  | nil => simp [alookup] at h
  | cons hd t ih =>
    obtain ⟨k1, v1⟩ := hd
    by_cases hk : k1 = k
    · subst hk
      simp only [alookup, eq_self_iff_true, if_true, Option.some.injEq] at h
      rw [← h]
      exact List.mem_cons_self _ _
    · simp only [alookup, if_neg hk] at h
      exact List.mem_cons_of_mem _ (ih h)

theorem eq_of_mem_firsts_of_pk_eq (l : List PObj) (a b : PObj)
    (ha : a ∈ firsts l) (hb : b ∈ firsts l) (h : a.pk = b.pk) : a = b := by
  have h1 := firstWithPk_of_mem_firsts l a ha
  have h2 := firstWithPk_of_mem_firsts l b hb
  rw [h] at h1
  exact Option.some_inj.mp (h1.symm.trans h2)

theorem griResults_lookup (env : PEnv) (input : List PObj) (q : Nat) :
    alookup (((classifyFold env input).idlists.foldl
        (phase2Step env (classifyFold env input).byId)
        ((classifyFold env input).results, [])).1) q =
      (firstWithPk input q).map (resultFor env) := by
  have hidl : (classifyFold env input).idlists
      = groupFold env ((firsts input).filter (isDerived env)) :=
    classifyFold_idlists env input
  have hdsub : ((firsts input).filter (isDerived env)).Sublist (firsts input) :=
    List.filter_sublist _
  have hdsnod : (((firsts input).filter (isDerived env)).map PObj.pk).Nodup :=
    List.Nodup.sublist (hdsub.map PObj.pk) (firsts_pk_nodup input)
  have hentry : ∀ pr ∈ (classifyFold env input).idlists,
      pr.2 = (((firsts input).filter (isDerived env)).filter
        (fun b => realCls env b == pr.1)).map PObj.pk := by
    intro pr hpr
    obtain ⟨mc, ids⟩ := pr
    rw [hidl] at hpr
    exact groupFold_entry env _ mc ids hpr
  have hmem_of : ∀ pr ∈ (classifyFold env input).idlists, ∀ p ∈ pr.2,
      ∃ b, b ∈ (firsts input).filter (isDerived env) ∧ realCls env b = pr.1 ∧ b.pk = p := by
    intro pr hpr p hp
    rw [hentry pr hpr] at hp
    obtain ⟨b, hbf, hbpk⟩ := List.mem_map.mp hp
    have hreq := List.of_mem_filter hbf
    simp only [beq_iff_eq] at hreq
    exact ⟨b, List.mem_of_mem_filter hbf, hreq, hbpk⟩
  have hnodup : ∀ pr ∈ (classifyFold env input).idlists, (pr.2 : List Nat).Nodup := by
    intro pr hpr
    rw [hentry pr hpr]
    exact List.Nodup.sublist ((List.filter_sublist _).map PObj.pk) hdsnod
  have hres : ∀ pr ∈ (classifyFold env input).idlists, ∀ p ∈ pr.2,
      alookup (classifyFold env input).results p = none := by
    intro pr hpr p hp
    obtain ⟨b, hbds, _, hbpk⟩ := hmem_of pr hpr p hp
    have hbfs : b ∈ firsts input := List.mem_of_mem_filter hbds
    have hbder : isDerived env b = true := List.of_mem_filter hbds
    have hfw : firstWithPk input p = some b := by
      rw [← hbpk]
      exact firstWithPk_of_mem_firsts input b hbfs
    rw [classifyFold_results, hfw]
    simp [hbder]
  have hby : ∀ pr ∈ (classifyFold env input).idlists, ∀ p ∈ pr.2, ∀ bo,
      alookup (classifyFold env input).byId p = some bo → bo.pk = p := by
    intro pr _ p _ bo hbo
    rw [classifyFold_byId] at hbo
    exact pk_of_firstWithPk input p bo hbo
  have hdisj : (classifyFold env input).idlists.Pairwise
      (fun a b => ∀ p, p ∈ a.2 → ¬ p ∈ b.2) := by
    have hp1 : (classifyFold env input).idlists.Pairwise (fun a b => a.1 ≠ b.1) := by
      rw [hidl]
      have hnd := groupFold_fst_nodup env ((firsts input).filter (isDerived env))
      rw [List.Nodup, List.pairwise_map] at hnd
      exact hnd
    refine List.Pairwise.imp_of_mem ?_ hp1
    intro a b ha hb hne p hpa hpb
    obtain ⟨ba, hbads, hbar, hbapk⟩ := hmem_of a ha p hpa
    obtain ⟨bb, hbbds, hbbr, hbbpk⟩ := hmem_of b hb p hpb
    have heq : ba = bb := by
      refine eq_of_mem_firsts_of_pk_eq input ba bb
        (hdsub.subset hbads) (hdsub.subset hbbds) ?_
      rw [hbapk, hbbpk]
    exact hne (by rw [← hbar, heq, hbbr])
  rw [phase2Fold_lookup env (classifyFold env input).byId (classifyFold env input).idlists
    (classifyFold env input).results [] q hnodup hres hby hdisj]
  cases hfw : firstWithPk input q with
  | none =>
    have hfind : (classifyFold env input).idlists.find? (fun pr => decide (q ∈ pr.2))
        = none := by
      rw [List.find?_eq_none]
      intro pr hpr
      simp only [decide_eq_true_eq]
      intro hq
      obtain ⟨b, hbds, _, hbpk⟩ := hmem_of pr hpr q hq
      have hsome : firstWithPk input q = some b := by
        rw [← hbpk]
        exact firstWithPk_of_mem_firsts input b (List.mem_of_mem_filter hbds)
      rw [hfw] at hsome
      cases hsome
    rw [hfind, classifyFold_results, hfw]
    rfl
  | some bo =>
    have hbo : alookup (classifyFold env input).byId q = some bo := by
      rw [classifyFold_byId, hfw]
    have hpkq : bo.pk = q := pk_of_firstWithPk input q bo hfw
    have hbomem : bo ∈ firsts input := mem_firsts_of_firstWithPk input q bo hfw
    by_cases hder : isDerived env bo = true
    · have hbods : bo ∈ (firsts input).filter (isDerived env) :=
        List.mem_filter.mpr ⟨hbomem, hder⟩
      have hlook : alookup (groupFold env ((firsts input).filter (isDerived env)))
          (realCls env bo) = some ((((firsts input).filter (isDerived env)).filter
            (fun b => realCls env b == realCls env bo)).map PObj.pk) := by
        rw [groupFold_lookup, if_pos (List.mem_map.mpr ⟨bo, hbods, rfl⟩)]
      have hqin : q ∈ (((firsts input).filter (isDerived env)).filter
          (fun b => realCls env b == realCls env bo)).map PObj.pk := by
        refine List.mem_map.mpr ⟨bo, ?_, hpkq⟩
        exact List.mem_filter.mpr ⟨hbods, by simp⟩
      have hmementry : (realCls env bo, (((firsts input).filter (isDerived env)).filter
          (fun b => realCls env b == realCls env bo)).map PObj.pk)
          ∈ (classifyFold env input).idlists := by
        rw [hidl]
        exact mem_of_alookup_eq_some _ _ _ hlook
      have hissome : ((classifyFold env input).idlists.find?
          (fun pr => decide (q ∈ pr.2))).isSome := by
        rw [List.find?_isSome]
        exact ⟨_, hmementry, by simpa using hqin⟩
      obtain ⟨pr, hprfind⟩ := Option.isSome_iff_exists.mp hissome
      have hprmem : pr ∈ (classifyFold env input).idlists :=
        List.mem_of_find?_eq_some hprfind
      have hprq : q ∈ pr.2 := by
        have := List.find?_some hprfind
        simpa using this
      have hpr1 : pr.1 = realCls env bo := by
        obtain ⟨b, hbds, hbr, hbpk⟩ := hmem_of pr hprmem q hprq
        have hbeq : b = bo := by
          refine eq_of_mem_firsts_of_pk_eq input b bo
            (hdsub.subset hbds) hbomem ?_
          rw [hbpk, hpkq]
        rw [← hbr, hbeq]
      rw [hprfind, hbo]
      show some (resultForDerived env pr.1 bo) = Option.map (resultFor env) (some bo)
      rw [hpr1]
      simp only [isDerived, Bool.and_eq_true, Bool.not_eq_true'] at hder
      simp [resultFor, hder.1, hder.2]
    · have hfind : (classifyFold env input).idlists.find? (fun pr => decide (q ∈ pr.2))
          = none := by
        rw [List.find?_eq_none]
        intro pr hpr
        simp only [decide_eq_true_eq]
        intro hq
        obtain ⟨b, hbds, _, hbpk⟩ := hmem_of pr hpr q hq
        have hbeq : b = bo := by
          refine eq_of_mem_firsts_of_pk_eq input b bo
            (hdsub.subset hbds) hbomem ?_
          rw [hbpk, hpkq]
        exact hder (hbeq ▸ List.of_mem_filter hbds)
      rw [hfind, classifyFold_results, hfw]
      simp [hder]

theorem phase2Fold_queries (env : PEnv) (byId : List (Nat × PObj))
    (entries : List (Nat × List Nat)) (results : List (Nat × PObj))
    (qs0 : List (Nat × List Nat)) :
    (entries.foldl (phase2Step env byId) (results, qs0)).2 =
      if env.deferred then qs0 else qs0 ++ entries := by
  induction entries generalizing results qs0 with
  | nil => by_cases h : env.deferred <;> simp [h]
  | cons e rest ih =>
    rw [List.foldl_cons,
      show phase2Step env byId (results, qs0) e
        = (processModel env byId results e.1 e.2,
           if env.deferred then qs0 else qs0 ++ [e]) from rfl,
      ih]
    by_cases h : env.deferred <;> simp [h]

theorem get_real_instances_res (env : PEnv) (input : List PObj) :
    (get_real_instances env input).res =
      input.map (fun b => postNames env (resultFor env ((firstWithPk input b.pk).getD b))) := by
  have hlst0 : (input.map PObj.pk).filterMap
      (fun p => alookup (((classifyFold env input).idlists.foldl
        (phase2Step env (classifyFold env input).byId)
        ((classifyFold env input).results, [])).1) p)
      = input.map (fun b => resultFor env ((firstWithPk input b.pk).getD b)) := by
    rw [List.filterMap_map]
    refine filterMap_eq_map_of_forall _ _ _ ?_
    intro b hb
    show alookup _ b.pk = _
    rw [griResults_lookup]
    obtain ⟨x, hx⟩ := Option.isSome_iff_exists.mp (firstWithPk_isSome_of_mem input b hb)
    rw [hx]
    rfl
  by_cases hA : env.aggNames.isEmpty <;> by_cases hE : env.extraNames.isEmpty <;>
    simp only [get_real_instances, hA, hE, if_true, if_false, Bool.false_eq_true] <;>
    rw [hlst0] <;>
    simp [postNames, hA, hE, List.map_map, Function.comp]

theorem get_real_instances_queries (env : PEnv) (input : List PObj) :
    (get_real_instances env input).queries =
      if env.deferred then []
      else groupFold env ((firsts input).filter (isDerived env)) := by
  have hq : (get_real_instances env input).queries =
      ((classifyFold env input).idlists.foldl
        (phase2Step env (classifyFold env input).byId)
        ((classifyFold env input).results, [])).2 := rfl
  rw [hq, phase2Fold_queries, classifyFold_idlists]
  by_cases h : env.deferred <;> simp [h]

/-! Field-preservation and attribute-copy lemmas. -/

theorem map_eq_map_of_forall {α β : Type} (l : List α) (f g : α → β)
    (h : ∀ b ∈ l, f b = g b) : l.map f = l.map g := by
  induction l with
  | nil => rfl
  | cons a t ih =>
    rw [List.map_cons, List.map_cons, h a (List.mem_cons_self a t),
      ih (fun b hb => h b (List.mem_cons_of_mem a hb))]

theorem setAttr_pk (o : PObj) (n : String) (v : AVal) : (setAttr o n v).pk = o.pk := rfl

theorem setAttr_cls (o : PObj) (n : String) (v : AVal) : (setAttr o n v).cls = o.cls := rfl

theorem foldl_setAttr_pk (names : List String) (f : String → AVal) (o : PObj) :
    (names.foldl (fun acc n => setAttr acc n (f n)) o).pk = o.pk := by
  induction names generalizing o with
  | nil => rfl
  | cons m t ih => rw [List.foldl_cons, ih, setAttr_pk]

theorem foldl_setAttr_cls (names : List String) (f : String → AVal) (o : PObj) :
    (names.foldl (fun acc n => setAttr acc n (f n)) o).cls = o.cls := by
  induction names generalizing o with
  | nil => rfl
  | cons m t ih => rw [List.foldl_cons, ih, setAttr_cls]

theorem copyAnno_pk (env : PEnv) (bo o : PObj) : (copyAnno env bo o).pk = o.pk := by
  unfold copyAnno
  rw [foldl_setAttr_pk, foldl_setAttr_pk]

theorem copyAnno_cls (env : PEnv) (bo o : PObj) : (copyAnno env bo o).cls = o.cls := by
  unfold copyAnno
  rw [foldl_setAttr_cls, foldl_setAttr_cls]

theorem postNames_pk (env : PEnv) (o : PObj) : (postNames env o).pk = o.pk := by
  unfold postNames
  by_cases hA : env.aggNames.isEmpty <;> by_cases hE : env.extraNames.isEmpty <;>
    simp [hA, hE, setAttr_pk]

theorem postNames_cls (env : PEnv) (o : PObj) : (postNames env o).cls = o.cls := by
  unfold postNames
  by_cases hA : env.aggNames.isEmpty <;> by_cases hE : env.extraNames.isEmpty <;>
    simp [hA, hE, setAttr_cls]

theorem resultFor_pk (env : PEnv) (bo : PObj) : (resultFor env bo).pk = bo.pk := by
  unfold resultFor resultForDerived
  by_cases h1 : isSelfCt env bo = true
  · simp [h1]
  · by_cases h2 : (env.ctypeOf (realCls env bo) == env.ctypeOf env.selfModel) = true
    · simp [h1, h2, rebuildAs]
    · by_cases hd : env.deferred = true
      · by_cases hc : (bo.cls.isDeferredCls && (bo.cls.concreteId == realCls env bo)) = true <;>
          simp [h1, h2, hd, hc, copyAnno_pk, rebuildAs]
      · cases hdb : env.db (realCls env bo) bo.pk with
        | none => simp [h1, h2, hd, hdb, copyAnno_pk, rebuildAs]
        | some r => simp [h1, h2, hd, hdb, copyAnno_pk]

theorem getAttrD_setAttr_same (o : PObj) (n : String) (v : AVal) :
    getAttrD (setAttr o n v) n = v := by
  simp [getAttrD, setAttr, alookup_aset_self]

theorem getAttrD_setAttr_ne (o : PObj) (n m : String) (v : AVal) (h : n ≠ m) :
    getAttrD (setAttr o m v) n = getAttrD o n := by
  simp [getAttrD, setAttr, alookup_aset_ne _ _ _ _ h]

theorem getAttrD_foldl_copy (names : List String) (bo o : PObj) (n : String) :
    getAttrD (names.foldl (fun acc m => setAttr acc m (getAttrD bo m)) o) n =
      if n ∈ names then getAttrD bo n else getAttrD o n := by
  induction names generalizing o with
  | nil => simp
  | cons m t ih =>
    rw [List.foldl_cons, ih]
    by_cases hn : n ∈ t
    · simp [hn, List.mem_cons]
    · by_cases hm : n = m
      · subst hm
        simp [hn, getAttrD_setAttr_same]
      · simp [hn, hm, getAttrD_setAttr_ne o n m _ hm]

theorem copyAnno_getAttrD (env : PEnv) (bo o : PObj) (n : String)
    (hn : n ∈ env.aggNames ∨ n ∈ env.extraNames) :
    getAttrD (copyAnno env bo o) n = getAttrD bo n := by
  unfold copyAnno
  rw [getAttrD_foldl_copy, getAttrD_foldl_copy]
  rcases hn with hn | hn
  · by_cases he : n ∈ env.extraNames <;> simp [hn, he]
  · simp [hn]

theorem postNames_getAttrD (env : PEnv) (o : PObj) (n : String)
    (h1 : n ≠ "polymorphic_annotate_names")
    (h2 : n ≠ "polymorphic_extra_select_names") :
    getAttrD (postNames env o) n = getAttrD o n := by
  unfold postNames
  by_cases hA : env.aggNames.isEmpty <;> by_cases hE : env.extraNames.isEmpty <;>
    simp [hA, hE, getAttrD_setAttr_ne _ _ _ _ h1, getAttrD_setAttr_ne _ _ _ _ h2]

theorem rebuildAs_getAttrD (c : MCls) (bo : PObj) (n : String) :
    getAttrD (rebuildAs c bo) n = getAttrD bo n := rfl

theorem resultFor_getAttrD (env : PEnv) (bo : PObj) (n : String)
    (hn : n ∈ env.aggNames ∨ n ∈ env.extraNames) :
    getAttrD (resultFor env bo) n = getAttrD bo n := by
  unfold resultFor resultForDerived
  by_cases h1 : isSelfCt env bo = true
  · simp [h1]
  · by_cases h2 : (env.ctypeOf (realCls env bo) == env.ctypeOf env.selfModel) = true
    · simp [h1, h2, rebuildAs_getAttrD]
    · by_cases hd : env.deferred = true
      · by_cases hc : (bo.cls.isDeferredCls && (bo.cls.concreteId == realCls env bo)) = true <;>
          simp [h1, h2, hd, hc, copyAnno_getAttrD env _ _ n hn]
      · cases hdb : env.db (realCls env bo) bo.pk with
        | none => simp [h1, h2, hd, hdb, copyAnno_getAttrD env _ _ n hn]
        | some r => simp [h1, h2, hd, hdb, copyAnno_getAttrD env _ _ n hn]

theorem resultForDerived_concreteId (env : PEnv) (mc : Nat) (bo : PObj) :
    (resultForDerived env mc bo).cls.concreteId = mc := by
  unfold resultForDerived
  by_cases hd : env.deferred = true
  · by_cases hc : (bo.cls.isDeferredCls && (bo.cls.concreteId == mc)) = true
    · rw [if_pos hd, if_pos hc]
      exact beq_iff_eq.mp ((Bool.and_eq_true _ _).mp hc).2
    · rw [if_pos hd, if_neg hc, copyAnno_cls]
      rfl
  · rw [if_neg hd]
    cases hdb : env.db mc bo.pk with
    | none =>
      show (copyAnno env bo (rebuildAs (MCls.plain mc) bo)).cls.concreteId = mc
      rw [copyAnno_cls]
      rfl
    | some r =>
      show (copyAnno env bo
        { cls := MCls.plain mc, pk := bo.pk, ctype := r.1, attrs := r.2 }).cls.concreteId = mc
      rw [copyAnno_cls]
      rfl

/-! Claim theorems about the polymorphic loader. -/

/-- C2: for every list of base result objects, `_get_real_instances`
returns exactly one reconstructed object per input position, in the same
order, matched by primary key: the primary keys of the result list equal
the primary keys of the input list position by position. -/
theorem claim2_order_preserving (env : PEnv) (input : List PObj) :
    (get_real_instances env input).res.map PObj.pk = input.map PObj.pk := by
  rw [get_real_instances_res, List.map_map]
  refine map_eq_map_of_forall _ _ _ ?_
  intro b hb
  obtain ⟨x, hx⟩ := Option.isSome_iff_exists.mp (firstWithPk_isSome_of_mem input b hb)
  simp only [Function.comp_apply, hx, Option.getD_some]
  rw [postNames_pk, resultFor_pk]
  exact pk_of_firstWithPk input b.pk x hx

/-- C10: when the base result list contains several objects with the
same primary key, the output has the same length as the input, every
position is reconstructed from the first occurrence of its primary key,
and positions sharing a primary key receive the same reconstructed
object. -/
theorem claim10_duplicate_pks (env : PEnv) (input : List PObj) :
    (get_real_instances env input).res.length = input.length
    ∧ (∀ i bi, input.get? i = some bi →
        (get_real_instances env input).res.get? i =
          some (postNames env (resultFor env ((firstWithPk input bi.pk).getD bi))))
    ∧ (∀ i j bi bj, input.get? i = some bi → input.get? j = some bj → bi.pk = bj.pk →
        (get_real_instances env input).res.get? i =
          (get_real_instances env input).res.get? j) := by
  refine ⟨?_, ?_, ?_⟩
  · rw [get_real_instances_res, List.length_map]
  · intro i bi h
    rw [get_real_instances_res, List.get?_map, h]
    rfl
  · intro i j bi bj hi hj hpk
    rw [get_real_instances_res, List.get?_map, List.get?_map, hi, hj]
    simp only [Option.map_some']
    rw [hpk]
    obtain ⟨x, hx⟩ := Option.isSome_iff_exists.mp
      (firstWithPk_isSome_of_mem input bj (List.get?_mem hj))
    rw [hx]
    rfl

/-- C1: with unique primary keys in the page, each object the loader
returns for a base-table row follows the class recorded in the row's
`polymorphic_ctype`: rows carrying the base model's own content type are
returned as-is, rows whose real class shares the base model's concrete
class are rebuilt as that proxy class from the base object's data, and
all remaining rows come back as (an instance of) their derived real
class, keyed by the same primary key. -/
theorem claim1_real_instance_classes (env : PEnv) (input : List PObj)
    (hnd : (input.map PObj.pk).Nodup) (i : Nat) (bo out : PObj)
    (hin : input.get? i = some bo)
    (hout : (get_real_instances env input).res.get? i = some out) :
    (bo.ctype = env.ctypeForProxied env.selfModel → out = postNames env bo)
    ∧ (bo.ctype ≠ env.ctypeForProxied env.selfModel →
        env.ctypeOf (env.realClassOf bo.ctype) = env.ctypeOf env.selfModel →
        out = postNames env (rebuildAs (MCls.plain (env.realClassOf bo.ctype)) bo))
    ∧ (bo.ctype ≠ env.ctypeForProxied env.selfModel →
        env.ctypeOf (env.realClassOf bo.ctype) ≠ env.ctypeOf env.selfModel →
        out.cls.concreteId = env.realClassOf bo.ctype ∧ out.pk = bo.pk) := by
  have hmem : bo ∈ input := List.get?_mem hin
  have hfw : firstWithPk input bo.pk = some bo :=
    firstWithPk_eq_self_of_nodup input bo hnd hmem
  have hout2 : out = postNames env (resultFor env bo) := by
    rw [get_real_instances_res, List.get?_map, hin] at hout
    simp only [Option.map_some', hfw, Option.getD_some, Option.some.injEq] at hout
    exact hout.symm
  refine ⟨?_, ?_, ?_⟩
  · intro h
    rw [hout2]
    simp [resultFor, isSelfCt, h]
  · intro h hp
    rw [hout2]
    simp [resultFor, isSelfCt, realCls, h, hp]
  · intro h hp
    rw [hout2, postNames_cls, postNames_pk, resultFor_pk]
    refine ⟨?_, rfl⟩
    have hsc : isSelfCt env bo = false := by simp [isSelfCt, h]
    have hpx : (env.ctypeOf (realCls env bo) == env.ctypeOf env.selfModel) = false := by
      simp [realCls, hp]
    rw [show resultFor env bo = resultForDerived env (realCls env bo) bo by
      simp [resultFor, hsc, hpx]]
    exact resultForDerived_concreteId env (realCls env bo) bo

/-- C8: with unique primary keys in the page, every annotation and every
extra-select attribute on a returned object (other than the two
debug-name attributes the loader itself sets afterwards) carries the
same value as on the corresponding base result object, on every
reconstruction path. -/
theorem claim8_annotations_preserved (env : PEnv) (input : List PObj) (n : String)
    (hnd : (input.map PObj.pk).Nodup)
    (hn : n ∈ env.aggNames ∨ n ∈ env.extraNames)
    (h1 : n ≠ "polymorphic_annotate_names")
    (h2 : n ≠ "polymorphic_extra_select_names")
    (i : Nat) (bo out : PObj)
    (hin : input.get? i = some bo)
    (hout : (get_real_instances env input).res.get? i = some out) :
    getAttrD out n = getAttrD bo n := by
  have hmem : bo ∈ input := List.get?_mem hin
  have hfw : firstWithPk input bo.pk = some bo :=
    firstWithPk_eq_self_of_nodup input bo hnd hmem
  have hout2 : out = postNames env (resultFor env bo) := by
    rw [get_real_instances_res, List.get?_map, hin] at hout
    simp only [Option.map_some', hfw, Option.getD_some, Option.some.injEq] at hout
    exact hout.symm
  rw [hout2, postNames_getAttrD env _ n h1 h2, resultFor_getAttrD env bo n hn]

/-- C5 (amended): when a derived row's subclass-table counterpart is
missing, `_get_real_instances` does not surface a does-not-exist error;
it silently re-creates the object from the base row's data under the
derived class, with annotation and extra-select values copied over. -/
theorem claim5_missing_rows_recreated (env : PEnv) (input : List PObj)
    (hnd : (input.map PObj.pk).Nodup) (hdef : env.deferred = false)
    (i : Nat) (bo : PObj) (hin : input.get? i = some bo)
    (h1 : bo.ctype ≠ env.ctypeForProxied env.selfModel)
    (h2 : env.ctypeOf (env.realClassOf bo.ctype) ≠ env.ctypeOf env.selfModel)
    (hmiss : env.db (env.realClassOf bo.ctype) bo.pk = none) :
    (get_real_instances env input).res.get? i =
      some (postNames env (copyAnno env bo
        (rebuildAs (MCls.plain (env.realClassOf bo.ctype)) bo))) := by
  have hfw : firstWithPk input bo.pk = some bo :=
    firstWithPk_eq_self_of_nodup input bo hnd (List.get?_mem hin)
  rw [get_real_instances_res, List.get?_map, hin]
  simp only [Option.map_some', hfw, Option.getD_some]
  have hres : resultFor env bo = copyAnno env bo
      (rebuildAs (MCls.plain (env.realClassOf bo.ctype)) bo) := by
    simp [resultFor, resultForDerived, isSelfCt, realCls, h1, h2, hdef, hmiss]
  rw [hres]

/-- C4 (amended, non-deferred mode): with unique primary keys in the
page, the loader issues exactly one `filter(pk__in=...)` database query
per distinct derived model class occurring in the page (base-class and
proxy-class objects cause none), and each query's primary-key list is
exactly the list of that class's rows in the page. -/
theorem claim4_one_query_per_derived_class (env : PEnv) (input : List PObj)
    (hdef : env.deferred = false) (hnd : (input.map PObj.pk).Nodup) :
    ((get_real_instances env input).queries.map Prod.fst).Nodup
    ∧ (∀ mc, mc ∈ (get_real_instances env input).queries.map Prod.fst ↔
        ∃ bo ∈ input, isDerived env bo = true ∧ realCls env bo = mc)
    ∧ (∀ mc ids, (mc, ids) ∈ (get_real_instances env input).queries →
        ids = (input.filter (fun b => isDerived env b && (realCls env b == mc))).map PObj.pk) := by
  have hq : (get_real_instances env input).queries
      = groupFold env (input.filter (isDerived env)) := by
    rw [get_real_instances_queries, if_neg (by simp [hdef]),
      firsts_eq_self_of_nodup input hnd]
  refine ⟨?_, ?_, ?_⟩
  · rw [hq]
    exact groupFold_fst_nodup env _
  · intro mc
    rw [hq, mem_groupFold_fst]
    constructor
    · intro h
      obtain ⟨b, hbf, hbr⟩ := List.mem_map.mp h
      exact ⟨b, List.mem_of_mem_filter hbf, List.of_mem_filter hbf, hbr⟩
    · rintro ⟨b, hbmem, hbder, hbr⟩
      exact List.mem_map.mpr ⟨b, List.mem_filter.mpr ⟨hbmem, hbder⟩, hbr⟩
  · intro mc ids h
    rw [hq] at h
    rw [groupFold_entry env _ mc ids h, List.filter_filter]
    congr 1
    apply List.filter_congr
    intro a _
    rw [Bool.and_comm]

/-! The deferred-attribute cache: supporting lemmas. -/

theorem asetFold_lookup_not_mem (names : List String) (v : String → AVal)
    (data : Attrs) (q : String) (h : ¬ q ∈ names) :
    alookup (names.foldl (fun d f => aset d f (v f)) data) q = alookup data q := by
  induction names generalizing data with
  | nil => rfl
  | cons m t ih =>
    simp only [List.mem_cons] at h
    push_neg at h
    rw [List.foldl_cons, ih _ h.2, alookup_aset_ne _ _ _ _ h.1]

theorem asetFold_lookup_mem (names : List String) (v : String → AVal)
    (data : Attrs) (q : String) (h : q ∈ names) :
    alookup (names.foldl (fun d f => aset d f (v f)) data) q = some (v q) := by
  induction names generalizing data with
  | nil => simp at h
  | cons m t ih =>
    rw [List.foldl_cons]
    by_cases hq : q ∈ t
    · exact ih _ hq
    · have hqm : q = m := by
        rcases List.mem_cons.mp h with hh | hh
        · exact hh
        · exact absurd hh hq
      subst hqm
      rw [asetFold_lookup_not_mem t v _ q hq, alookup_aset_self]

theorem bdaGet_cached (benv : BDAEnv) (data : Attrs) (f : String) (v : AVal)
    (h : alookup data f = some v) :
    BulkDeferredAttribute_get benv data f = (some v, data, 0) := by
  unfold BulkDeferredAttribute_get
  rw [h]
  rfl

/-- C6: on a deferred-mode instance, the first access to an uncached
bulk-deferred field performs exactly one database fetch, caches the
fetched value of every bulk-deferred field of the class on the instance,
and returns the requested one; a second access returns the cached value
with no further fetch; assigning a value stores it directly with no
database access and later reads return it with no fetch; and loading a
page in deferred mode issues no database queries at all (subclass-only
fields stay unfetched at load time). -/
theorem claim6_bulk_deferred_descriptor (benv : BDAEnv) (data : Attrs) (f : String)
    (hf : f ∈ benv.bulkFields) (hc : alookup data f = none) :
    (BulkDeferredAttribute_get benv data f).2.2 = 1
    ∧ (BulkDeferredAttribute_get benv data f).1 = some (bdaFetchVal benv data f)
    ∧ (∀ g ∈ benv.bulkFields,
        alookup (BulkDeferredAttribute_get benv data f).2.1 g
          = some (bdaFetchVal benv data g))
    ∧ BulkDeferredAttribute_get benv (BulkDeferredAttribute_get benv data f).2.1 f
        = ((BulkDeferredAttribute_get benv data f).1,
           (BulkDeferredAttribute_get benv data f).2.1, 0)
    ∧ (∀ v, (BulkDeferredAttribute_set data f v).2 = 0
        ∧ BulkDeferredAttribute_get benv (BulkDeferredAttribute_set data f v).1 f
            = (some v, (BulkDeferredAttribute_set data f v).1, 0))
    ∧ (∀ env2 : PEnv, ∀ input : List PObj, env2.deferred = true →
        (get_real_instances env2 input).queries = []) := by
  have hne : benv.bulkFields.isEmpty = false := by
    cases hbf : benv.bulkFields with
    | nil => rw [hbf] at hf; cases hf
    | cons a t => rfl
  have hcont : benv.bulkFields.contains f = true := by
    simpa using hf
  have hcond : (!benv.bulkFields.isEmpty && benv.bulkFields.contains f) = true := by
    rw [hne, hcont]
    rfl
  have hget : BulkDeferredAttribute_get benv data f
      = (some (bdaFetchVal benv data f),
         benv.bulkFields.foldl (fun d g => aset d g (bdaFetchVal benv data g)) data, 1) := by
    unfold BulkDeferredAttribute_get
    rw [hc]
    simp only [Option.isSome_none, Bool.false_eq_true, if_false, hcond, if_true]
    rw [asetFold_lookup_mem _ _ _ f hf]
  refine ⟨?_, ?_, ?_, ?_, ?_, ?_⟩
  · rw [hget]
  · rw [hget]
  · intro g hg
    rw [hget]
    exact asetFold_lookup_mem _ _ _ g hg
  · have hl : alookup ((BulkDeferredAttribute_get benv data f).2.1) f
        = some (bdaFetchVal benv data f) := by
      rw [hget]
      exact asetFold_lookup_mem _ _ _ f hf
    rw [bdaGet_cached benv _ f _ hl, hget]
  · intro v
    refine ⟨rfl, ?_⟩
    exact bdaGet_cached benv _ f v (alookup_aset_self _ _ _)
  · intro env2 input h2
    rw [get_real_instances_queries, if_pos h2]

/-! The metaclass validation: supporting lemmas. -/

theorem validate_model_manager_ok (m : ManagerInfo) :
    validate_model_manager m = Except.ok () ↔
      (m.isPolymorphicManagerSub = true ∧ m.querysetClassOk = true) := by
  unfold validate_model_manager
  by_cases h1 : m.isPolymorphicManagerSub = true <;>
    by_cases h2 : m.querysetClassOk = true <;> simp [h1, h2]

theorem validate_model_fields_ok (fields : List String) :
    validate_model_fields fields = Except.ok () ↔
      ¬ ∃ n ∈ fields, n = "instance_of" ∨ n = "not_instance_of" := by
  unfold validate_model_fields
  cases hfind : fields.find? (fun n => POLYMORPHIC_SPECIAL_Q_KWORDS.contains n) with
  | none =>
    constructor
    · intro _
      rintro ⟨n, hn, hor⟩
      have hno := List.find?_eq_none.mp hfind n hn
      simp [POLYMORPHIC_SPECIAL_Q_KWORDS] at hno
      rcases hor with h | h
      · exact hno.1 h
      · exact hno.2 h
    · intro _
      rfl
  | some n =>
    constructor
    · intro h
      exact Except.noConfusion h
    · intro hno
      refine (hno ⟨n, List.mem_of_find?_eq_some hfind, ?_⟩).elim
      have hp := List.find?_some hfind
      simpa [POLYMORPHIC_SPECIAL_Q_KWORDS] using hp

theorem validateInheritedManagers_ok (ms : List ManagerInfo) :
    validateInheritedManagers ms = Except.ok () ↔
      ¬ ∃ m ∈ ms, m.isPolymorphicManagerSub = true ∧ m.querysetClassOk = false := by
  induction ms with
  | nil => simp [validateInheritedManagers]
  | cons m t ih =>
    rw [validateInheritedManagers]
    by_cases h1 : m.isPolymorphicManagerSub = true
    · rw [if_pos h1]
      by_cases h2 : m.querysetClassOk = true
      · rw [(validate_model_manager_ok m).mpr ⟨h1, h2⟩]
        rw [ih]
        constructor
        · rintro h ⟨x, hx, hx1, hx2⟩
          rcases List.mem_cons.mp hx with rfl | hxm
          · rw [h2] at hx2
            cases hx2
          · exact h ⟨x, hxm, hx1, hx2⟩
        · intro h hex
          obtain ⟨x, hxm, hx1, hx2⟩ := hex
          exact h ⟨x, List.mem_cons_of_mem _ hxm, hx1, hx2⟩
      · have hv : validate_model_manager m
            = Except.error "queryset class is not a subclass of PolymorphicQuerySet" := by
          unfold validate_model_manager
          simp [h1, h2]
        rw [hv]
        constructor
        · intro hh
          exact Except.noConfusion hh
        · intro hno
          refine (hno ⟨m, List.mem_cons_self _ _, h1, ?_⟩).elim
          simpa using h2
    · rw [if_neg h1, ih]
      constructor
      · rintro h ⟨x, hx, hx1, hx2⟩
        rcases List.mem_cons.mp hx with rfl | hxm
        · exact h1 hx1
        · exact h ⟨x, hxm, hx1, hx2⟩
      · intro h hex
        obtain ⟨x, hxm, hx1, hx2⟩ := hex
        exact h ⟨x, List.mem_cons_of_mem _ hxm, hx1, hx2⟩

theorem exists_error_of_ne_ok (x : Except String Unit) (h : ¬ x = Except.ok ()) :
    ∃ e, x = Except.error e := by
  cases x with
  | error e => exact ⟨e, rfl⟩
  | ok u => cases u; exact absurd rfl h

/-- C7: constructing a non-deferred polymorphic model class raises an
`AssertionError` if and only if the model declares a field named
`instance_of` or `not_instance_of`, or some inherited polymorphic
manager has a `queryset_class` that is not a `PolymorphicQuerySet`
subclass, or the resulting default manager is not a `PolymorphicManager`
subclass with a `PolymorphicQuerySet`-derived `queryset_class`; when
none of these hold, class creation succeeds and returns the class. -/
theorem claim7_metaclass_validation (d : ModelDecl) (hdef : d.deferredModel = false) :
    ((∃ e, PolymorphicModelBase_new d = Except.error e) ↔
      ((∃ n ∈ d.fieldNames, n = "instance_of" ∨ n = "not_instance_of")
        ∨ (∃ m ∈ d.inheritedManagers, m.isPolymorphicManagerSub = true
            ∧ m.querysetClassOk = false)
        ∨ ¬ (d.defaultManager.isPolymorphicManagerSub = true
            ∧ d.defaultManager.querysetClassOk = true)))
    ∧ (PolymorphicModelBase_new d = Except.ok d ↔
      ¬ ((∃ n ∈ d.fieldNames, n = "instance_of" ∨ n = "not_instance_of")
        ∨ (∃ m ∈ d.inheritedManagers, m.isPolymorphicManagerSub = true
            ∧ m.querysetClassOk = false)
        ∨ ¬ (d.defaultManager.isPolymorphicManagerSub = true
            ∧ d.defaultManager.querysetClassOk = true))) := by
  have hok : PolymorphicModelBase_new d = Except.ok d ↔
      ¬ ((∃ n ∈ d.fieldNames, n = "instance_of" ∨ n = "not_instance_of")
        ∨ (∃ m ∈ d.inheritedManagers, m.isPolymorphicManagerSub = true
            ∧ m.querysetClassOk = false)
        ∨ ¬ (d.defaultManager.isPolymorphicManagerSub = true
            ∧ d.defaultManager.querysetClassOk = true)) := by
    unfold PolymorphicModelBase_new
    rw [if_neg (by simp [hdef])]
    by_cases hA : ∃ n ∈ d.fieldNames, n = "instance_of" ∨ n = "not_instance_of"
    · obtain ⟨e, he⟩ := exists_error_of_ne_ok _
        (fun hh => (validate_model_fields_ok d.fieldNames).mp hh hA)
      rw [he]
      simp [hA]
    · rw [(validate_model_fields_ok d.fieldNames).mpr hA]
      by_cases hB : ∃ m ∈ d.inheritedManagers, m.isPolymorphicManagerSub = true
          ∧ m.querysetClassOk = false
      · obtain ⟨e, he⟩ := exists_error_of_ne_ok _
          (fun hh => (validateInheritedManagers_ok d.inheritedManagers).mp hh hB)
        rw [he]
        simp [hA, hB]
      · rw [(validateInheritedManagers_ok d.inheritedManagers).mpr hB]
        by_cases hC : d.defaultManager.isPolymorphicManagerSub = true
            ∧ d.defaultManager.querysetClassOk = true
        · rw [(validate_model_manager_ok d.defaultManager).mpr hC]
          simp [hA, hB, hC]
        · obtain ⟨e, he⟩ := exists_error_of_ne_ok _
            (fun hh => hC ((validate_model_manager_ok d.defaultManager).mp hh))
          rw [he]
          simp [hA, hB, hC]
  have hshape : PolymorphicModelBase_new d = Except.ok d
      ∨ ∃ e, PolymorphicModelBase_new d = Except.error e := by
    unfold PolymorphicModelBase_new
    rw [if_neg (by simp [hdef])]
    cases validate_model_fields d.fieldNames with
    | error e => exact Or.inr ⟨e, rfl⟩
    | ok u =>
      cases validateInheritedManagers d.inheritedManagers with
      | error e => exact Or.inr ⟨e, rfl⟩
      | ok u2 =>
        cases validate_model_manager d.defaultManager with
        | error e => exact Or.inr ⟨e, rfl⟩
        | ok u3 => exact Or.inl rfl
  refine ⟨?_, hok⟩
  constructor
  · intro hex
    by_contra hno
    have := hok.mpr hno
    obtain ⟨e, he⟩ := hex
    rw [he] at this
    cases this
  · intro hbig
    rcases hshape with hk | he
    · exact absurd hbig (hok.mp hk)
    · exact he

/-! The chunked iterator: claims C3 and C9. -/

/-- Concrete environment for exercising `iterator()`: model 1 is the
base model and every row carries its content type, so no re-fetching is
needed. -/
def envC3 : PEnv :=
  { selfModel := 1
    ctypeForProxied := fun m => m + 10
    ctypeOf := fun m => m + 10
    realClassOf := fun ct => ct - 10
    db := fun _ _ => none
    deferred := false
    aggNames := []
    extraNames := [] }

/-- A base query result stream of exactly `CHUNK_SIZE` (100) rows. -/
def rows100 : List PObj :=
  (List.range 100).map (fun i => { cls := MCls.plain 1, pk := i, ctype := 11, attrs := [] })

/-- C3: on a stream of exactly 100 rows (one full chunk), the `while
True` loop of `iterator()` never reaches its end condition, because each
iteration re-creates the base iterator (`base_iter = self._iterator()`
stands inside the loop) and therefore re-reads the first chunk of the
same stream forever: the loop is not finished after any number of
iterations, and after `fuel` iterations it has yielded `100 * fuel`
objects instead of yielding each of the 100 matching rows exactly
once. -/
theorem claim3_iterator_restarts_stream :
    (∀ fuel, (polymorphicIteratorLoop envC3 rows100 fuel).finished = false)
    ∧ (∀ fuel, (polymorphicIteratorLoop envC3 rows100 fuel).yielded.length
        = Polymorphic_QuerySet_objects_per_request * fuel) := by
  have hlen : ¬ rows100.length < Polymorphic_QuerySet_objects_per_request := by
    simp [rows100, Polymorphic_QuerySet_objects_per_request]
  have hres : (get_real_instances envC3
      (rows100.take Polymorphic_QuerySet_objects_per_request)).res.length
      = Polymorphic_QuerySet_objects_per_request := by
    rw [get_real_instances_res, List.length_map]
    simp [rows100, Polymorphic_QuerySet_objects_per_request]
  constructor
  · intro fuel
    induction fuel with
    | zero => rfl
    | succ n ih =>
      simp only [polymorphicIteratorLoop, if_neg hlen]
      exact ih
  · intro fuel
    induction fuel with
    | zero => rfl
    | succ n ih =>
      simp only [polymorphicIteratorLoop, if_neg hlen, List.length_append, hres, ih]
      ring

/-- C9: with polymorphic behaviour disabled, `iterator()` yields exactly
the sequence of the host framework's standard queryset iterator,
finishes, and issues no polymorphic re-fetch query; and both
`non_polymorphic()` and the clone used by `aggregate()` produce
querysets whose `polymorphic_disabled` flag is set, which therefore
iterate identically to the vanilla queryset. -/
theorem claim9_disabled_matches_vanilla (env : PEnv) (rows : List PObj) (fuel : Nat)
    (qs : QSFlags) :
    polymorphicIterator env true rows fuel
      = { yielded := djangoIterator rows, finished := true, queries := [] }
    ∧ (qs.non_polymorphic).polymorphic_disabled = true
    ∧ (qs.aggregateClone).polymorphic_disabled = true
    ∧ polymorphicIterator env (qs.non_polymorphic).polymorphic_disabled rows fuel
        = { yielded := djangoIterator rows, finished := true, queries := [] }
    ∧ polymorphicIterator env (qs.aggregateClone).polymorphic_disabled rows fuel
        = { yielded := djangoIterator rows, finished := true, queries := [] } :=
  ⟨rfl, rfl, rfl, rfl, rfl⟩

/-! Concrete instances for witnesses and counterexamples. -/

/-- Concrete registry and database: model 1 is the queryset's base
model (content type 11), model 3 is a proxy sharing model 1's concrete
class, model 2 is a derived model whose table holds a row for primary
key 7 and none for primary key 8. One annotation `a` is present. -/
def envW : PEnv :=
  { selfModel := 1
    ctypeForProxied := fun m => m + 10
    ctypeOf := fun m => if m = 3 then 11 else m + 10
    realClassOf := fun ct => ct - 10
    db := fun mc p => if mc == 2 && p == 7 then some (12, [("f", AVal.int 5)]) else none
    deferred := false
    aggNames := ["a"]
    extraNames := [] }

/-- A row saved as the base model itself. -/
def boBase : PObj := { cls := MCls.plain 1, pk := 4, ctype := 11, attrs := [("a", AVal.int 9)] }

/-- A row saved as the proxy model 3. -/
def boProxy : PObj := { cls := MCls.plain 1, pk := 5, ctype := 13, attrs := [("a", AVal.int 8)] }

/-- A row saved as the derived model 2, whose derived row exists. -/
def boDer : PObj := { cls := MCls.plain 1, pk := 7, ctype := 12, attrs := [("a", AVal.int 7)] }

/-- A row saved as the derived model 2, whose derived row is missing. -/
def boMiss : PObj := { cls := MCls.plain 1, pk := 8, ctype := 12, attrs := [("a", AVal.int 6)] }

/-- A result page holding one row of each kind. -/
def inputW : List PObj := [boBase, boProxy, boDer, boMiss]

/-- The object the loader produces for the derived row with key 7. -/
def outDer : PObj :=
  { cls := MCls.plain 2, pk := 7, ctype := 12,
    attrs := [("f", AVal.int 5), ("a", AVal.int 7),
              ("polymorphic_annotate_names", AVal.names ["a"])] }

/-- A deferred-class environment with two bulk-deferred fields whose
stored row holds 5 and 2. -/
def benvW : BDAEnv :=
  { bulkFields := ["f", "g"]
    dbRow := some [("f", AVal.int 5), ("g", AVal.int 2)]
    defaults := [] }

/-- A well-formed model declaration: one ordinary field, one inherited
polymorphic manager, a polymorphic default manager. -/
def dW : ModelDecl :=
  { deferredModel := false
    fieldNames := ["x"]
    inheritedManagers := [{ isPolymorphicManagerSub := true, querysetClassOk := true }]
    defaultManager := { isPolymorphicManagerSub := true, querysetClassOk := true } }

/-- Witness for C1: in the concrete page, the derived row with key 7 is
returned as an instance of its real class 2 with its own primary key. -/
theorem claim1_real_instance_classes_witness :
    outDer.cls.concreteId = envW.realClassOf boDer.ctype ∧ outDer.pk = boDer.pk :=
  (claim1_real_instance_classes envW inputW (by decide) 2 boDer outDer
    (by decide) (by decide)).2.2 (by decide) (by decide)

/-- Witness for C4: in the concrete page, the loader issues queries with
pairwise distinct model classes, and the query for model 2 asks for
exactly the page's two rows of that class, keys 7 and 8. -/
theorem claim4_one_query_per_derived_class_witness :
    ((get_real_instances envW inputW).queries.map Prod.fst).Nodup
    ∧ [7, 8] = (inputW.filter
        (fun b => isDerived envW b && (realCls envW b == 2))).map PObj.pk :=
  ⟨(claim4_one_query_per_derived_class envW inputW (by decide) (by decide)).1,
   (claim4_one_query_per_derived_class envW inputW (by decide) (by decide)).2.2
     2 [7, 8] (by decide)⟩

/-- Counterexample for C4 as stated: in deferred mode a page containing
a derived-class row causes no database query at all, not one query per
derived class. -/
theorem claim4_counterexample_deferred_mode :
    isDerived { envW with deferred := true } boDer = true
    ∧ (get_real_instances { envW with deferred := true } [boDer]).queries = [] := by
  decide

/-- Witness for C5 (amended): the loader's output for the derived row
with the missing subclass row is the re-created object. -/
theorem claim5_missing_rows_recreated_witness :
    (get_real_instances envW inputW).res.get? 3 =
      some (postNames envW (copyAnno envW boMiss
        (rebuildAs (MCls.plain (envW.realClassOf boMiss.ctype)) boMiss))) :=
  claim5_missing_rows_recreated envW inputW (by decide) (by decide) 3 boMiss
    (by decide) (by decide) (by decide) (by decide)

/-- Counterexample for C5 as stated: for a base-table row of derived
class 2 with primary key 8 whose subclass row is missing, the loader
returns normally, producing a fully populated result list holding a
silently re-created instance; no does-not-exist condition reaches the
caller. -/
theorem claim5_counterexample_no_error_surfaces :
    envW.db (envW.realClassOf boMiss.ctype) boMiss.pk = none
    ∧ (get_real_instances envW [boMiss]).res
        = [{ cls := MCls.plain 2, pk := 8, ctype := 12,
             attrs := [("a", AVal.int 6), ("polymorphic_annotate_names", AVal.names ["a"])] }] := by
  decide

/-- Witness for C6 at a concrete instance: one fetch on first access,
both bulk fields cached, the second access cached with no fetch, and
assignment storing directly with a fetch-free read afterwards. -/
theorem claim6_bulk_deferred_descriptor_witness :
    (BulkDeferredAttribute_get benvW [] "f").2.2 = 1
    ∧ (BulkDeferredAttribute_get benvW [] "f").1 = some (bdaFetchVal benvW [] "f")
    ∧ alookup (BulkDeferredAttribute_get benvW [] "f").2.1 "g"
        = some (bdaFetchVal benvW [] "g")
    ∧ BulkDeferredAttribute_get benvW (BulkDeferredAttribute_get benvW [] "f").2.1 "f"
        = ((BulkDeferredAttribute_get benvW [] "f").1,
           (BulkDeferredAttribute_get benvW [] "f").2.1, 0)
    ∧ (BulkDeferredAttribute_set [] "f" (AVal.int 42)).2 = 0
    ∧ BulkDeferredAttribute_get benvW (BulkDeferredAttribute_set [] "f" (AVal.int 42)).1 "f"
        = (some (AVal.int 42), (BulkDeferredAttribute_set [] "f" (AVal.int 42)).1, 0)
    ∧ (get_real_instances { envW with deferred := true } inputW).queries = [] := by
  have h := claim6_bulk_deferred_descriptor benvW [] "f" (by decide) (by decide)
  exact ⟨h.1, h.2.1, h.2.2.1 "g" (by decide), h.2.2.2.1,
    (h.2.2.2.2.1 (AVal.int 42)).1, (h.2.2.2.2.1 (AVal.int 42)).2,
    h.2.2.2.2.2 _ inputW rfl⟩

/-- Witness for C7: the well-formed concrete declaration is created
successfully. -/
theorem claim7_metaclass_validation_witness :
    PolymorphicModelBase_new dW = Except.ok dW :=
  (claim7_metaclass_validation dW (by decide)).2.mpr (by decide)

/-- Witness for C8: the annotation `a` on the re-fetched derived object
with key 7 equals the annotation on its base result object. -/
theorem claim8_annotations_preserved_witness :
    getAttrD outDer "a" = getAttrD boDer "a" :=
  claim8_annotations_preserved envW inputW "a" (by decide) (by decide)
    (by decide) (by decide) 2 boDer outDer (by decide) (by decide)

/-- A page in which the same derived row (key 7) appears twice. -/
def inputDup : List PObj := [boDer, boDer]

/-- Witness for C10 on a page with a duplicated primary key: the output
has the input's length and both positions carry the same reconstructed
object. -/
theorem claim10_duplicate_pks_witness :
    (get_real_instances envW inputDup).res.length = inputDup.length
    ∧ (get_real_instances envW inputDup).res.get? 0
        = (get_real_instances envW inputDup).res.get? 1 :=
  ⟨(claim10_duplicate_pks envW inputDup).1,
   (claim10_duplicate_pks envW inputDup).2.2 0 1 boDer boDer
     (by decide) (by decide) rfl⟩
